import Mathlib

/-!
Verification of the QLab Box controller against its specification.

This file gives a shallow embedding of the parts of the program that the
verified properties are about:

* `app/discover.py` : workspace-name classification and the deterministic
  role decision (`classify`, `decide_roles`);
* `app/core.py`     : the workspace-listing parser (`parse_workspaces`) and
  the inbound reply dispatcher (`osc_handler`);
* `app/daemon.py`   : the heartbeat throttle (`thump_fire`), the offline
  backoff and reconcile loop (`bump_offline_backoff`, `reconcile_endpoint`),
  and the LED blink target computation (`blink_on`, `led_target`).

Python strings are modelled as Lean `String`, JSON values as the inductive
`JValue`, float-valued times as rationals, and the mutable module-level
dictionaries as explicit state records threaded through the functions.
Python dictionaries are modelled as association lists with unique keys
(insertion order preserved, as in CPython).
-/

namespace QLabBox

/-- JSON values, as produced by `json.loads`.  Objects are association
lists; keys are unique (CPython keeps the last duplicate at parse time, so
a parsed object always has unique keys). -/
inductive JValue where
  | str (s : String)
  | num (q : ℚ)
  | bool (b : Bool)
  | null
  | arr (xs : List JValue)
  | obj (fields : List (String × JValue))

/-- Python truthiness of a JSON value (`bool(x)`). -/
def jFalsy : JValue → Bool
  | .str s => s.isEmpty
  | .num q => q = 0
  | .bool b => !b
  | .null => true
  | .arr xs => xs.isEmpty
  | .obj fs => fs.isEmpty

/-- Python `a or b` on optional JSON values (`dict.get` returns `None` for a
missing key, and `None` is falsy). -/
def pyOr (a b : Option JValue) : Option JValue :=
  match a with
  | some v => if jFalsy v then b else some v
  | none => b

/-- Python `s.endswith(suf)`, via the character list. -/
def endsWithB (s suf : String) : Bool :=
  suf.data.isSuffixOf s.data

/-- Python `s.startswith(pre)`, via the character list. -/
def startsWithB (s p : String) : Bool :=
  p.data.isPrefixOf s.data

/-- Python `s[:-n]` for `0 < n ≤ len(s)`: drop the last `n` characters. -/
def strDropRight (s : String) (n : Nat) : String :=
  ⟨s.data.take (s.data.length - n)⟩

/-- Python `str.replace` on character lists: replace every non-overlapping
occurrence of `pat`, scanning left to right.  Structural recursion on a
fuel argument so that the kernel can evaluate it; every step consumes at
least one character, so fuel equal to the input length (as supplied by
`pyReplace`) never runs out.  (For the empty pattern the program never
calls it; the guard keeps the definition total.) -/
def pyReplaceAux (pat rep : List Char) : List Char → Nat → List Char
  | s, 0 => s
  | s, fuel + 1 =>
    match s with
    | [] => []
    | c :: rest =>
      if pat ≠ [] ∧ pat.isPrefixOf (c :: rest) then
        rep ++ pyReplaceAux pat rep ((c :: rest).drop pat.length) fuel
      else
        c :: pyReplaceAux pat rep rest fuel

/-- Python `s.replace(pat, rep)`. -/
def pyReplace (s pat rep : String) : String :=
  ⟨pyReplaceAux pat.data rep.data s.data s.data.length⟩

/-- Lexicographic comparison of character lists by code point: Python's
`<=` on `str`, as used by `list.sort()` in `decide_roles`. -/
def lexLe : List Char → List Char → Bool
  | [], _ => true
  | _ :: _, [] => false
  | a :: as, b :: bs => if a < b then true else if a = b then lexLe as bs else false

/-- Python `s <= t` on strings. -/
def pyStrLe (s t : String) : Bool :=
  lexLe s.data t.data

/-- `pyStrLe` as a relation (the sort order of `complete_bases.sort()`). -/
abbrev strLeRel (s t : String) : Prop :=
  pyStrLe s t = true

/-! ## Configuration constants (from `config/user_config.py`, which matches
the defaults in `app/core.py`). -/

def EXPECTED_WS_MAIN : String := "show_main"
def EXPECTED_WS_BACKUP : String := "show_backup"
def SUFFIX_MAIN : String := "_main"
def SUFFIX_BACKUP : String := "_backup"
def SUFFIX_AUX1 : String := "_aux1"

def HEARTBEAT_INTERVAL : ℚ := 2
def RECONCILE_EVERY : ℚ := 5
def OFFLINE_BACKOFF_MIN : ℚ := 2
def OFFLINE_BACKOFF_MAX : ℚ := 20
def OFFLINE_BACKOFF_FACTOR : ℚ := 2

/-! ## `app/discover.py`: classification and role decision -/

/-- `discover._classify`: returns `(kind, base)` for a workspace name. -/
def classify (ws_name : String) : String × String :=
  if ws_name = EXPECTED_WS_MAIN then ("main", "__legacy_expected__")
  else if ws_name = EXPECTED_WS_BACKUP then ("backup", "__legacy_expected__")
  else if endsWithB ws_name SUFFIX_MAIN then
    ("main", strDropRight ws_name SUFFIX_MAIN.length)
  else if endsWithB ws_name SUFFIX_BACKUP then
    ("backup", strDropRight ws_name SUFFIX_BACKUP.length)
  else if endsWithB ws_name SUFFIX_AUX1 then
    ("aux", strDropRight ws_name SUFFIX_AUX1.length)
  else ("plain", ws_name)

/-- `discover.Candidate`. -/
structure Candidate where
  ip : String
  ws_name : String
  ws_id : String
  kind : String
  base : String
deriving DecidableEq, Repr

/-- `core.Endpoint` (the fields set by pairing; `last_seen_mono` starts
at `0.0`). -/
structure Endpoint where
  ip : String
  role : String
  workspace_name : Option String := none
  workspace_id : Option String := none
  last_seen_mono : ℚ := 0
deriving DecidableEq, Repr

/-- `discover.PairingError` and its two subclasses (the message strings are
not modelled; no verified property mentions them). -/
inductive PairingError where
  | noResponders
  | conflict
deriving DecidableEq, Repr

/-- The role dictionary `decide_roles` returns: a `dict` whose keys are
among `main`, `backup`, `aux`. -/
structure Assignment where
  main : Option Endpoint
  backup : Option Endpoint
  aux : Option Endpoint
deriving DecidableEq, Repr

/-- The check `isinstance(ws_id, str) and ws_id` on a discovered value. -/
def validId : JValue → Bool
  | .str s => !s.isEmpty
  | _ => false

/-- The candidate list built by the first loop of `decide_roles`: one
candidate per discovered workspace whose identifier is a non-empty
string. -/
def candidatesOf (responders : List (String × List (String × JValue))) :
    List Candidate :=
  responders.flatMap fun p =>
    p.2.filterMap fun q =>
      match q.2 with
      | .str s =>
        if s.isEmpty then none
        else some ⟨p.1, q.1, s, (classify q.1).1, (classify q.1).2⟩
      | _ => none

/-- One entry of the `by_base` dictionary: `(base, (main slot, backup
slot))`. -/
abbrev BaseMap := List (String × (Option Candidate × Option Candidate))

/-- Inserting one tagged candidate into `by_base`
(`by_base.setdefault(c.base, {})` followed by the duplicate check and the
assignment `by_base[c.base][c.kind] = c`).  Precondition maintained by the
caller: `c.kind` is `main` or `backup`. -/
def bbInsert (c : Candidate) : BaseMap → Except PairingError BaseMap
  | [] =>
    .ok [(c.base, if c.kind = "main" then (some c, none) else (none, some c))]
  | e :: rest =>
    if e.1 = c.base then
      if c.kind = "main" then
        match e.2.1 with
        | some _ => .error .conflict
        | none => .ok ((e.1, (some c, e.2.2)) :: rest)
      else
        match e.2.2 with
        | some _ => .error .conflict
        | none => .ok ((e.1, (e.2.1, some c)) :: rest)
    else
      match bbInsert c rest with
      | .error err => .error err
      | .ok r => .ok (e :: r)

/-- The `by_base` grouping loop of `decide_roles` (candidates whose kind is
neither `main` nor `backup` are skipped). -/
def buildByBase : List Candidate → BaseMap → Except PairingError BaseMap
  | [], acc => .ok acc
  | c :: rest, acc =>
    if c.kind = "main" ∨ c.kind = "backup" then
      match bbInsert c acc with
      | .error e => .error e
      | .ok acc2 => buildByBase rest acc2
    else buildByBase rest acc

/-- `discover.decide_roles`.  The input is the responder list
`(ip, workspace name -> identifier)`; identifier values are JSON values
because the code re-checks `isinstance(ws_id, str)`. -/
def decide_roles (responders : List (String × List (String × JValue))) :
    Except PairingError Assignment :=
  if responders.isEmpty then .error .noResponders else
  let cands := candidatesOf responders
  if cands.isEmpty then .error .noResponders else
  let aux_cands := cands.filter fun c => c.kind = "aux"
  if 1 < aux_cands.length then .error .conflict else
  let aux_ep : Option Endpoint := aux_cands.head?.map fun c =>
    { ip := c.ip, role := "aux", workspace_name := some c.ws_name,
      workspace_id := some c.ws_id }
  match buildByBase cands [] with
  | .error e => .error e
  | .ok by_base =>
    let complete_bases :=
      (by_base.filter fun e => e.2.1.isSome && e.2.2.isSome).map Prod.fst
    let step : Except PairingError (Option String) :=
      if !complete_bases.isEmpty then
        .ok (complete_bases.insertionSort strLeRel).head?
      else
        let main_bases := (by_base.filter fun e => e.2.1.isSome).map Prod.fst
        if 1 < main_bases.length then .error .conflict
        else .ok main_bases.head?
    match step with
    | .error e => .error e
    | .ok (some b) =>
      match by_base.lookup b with
      | none => .error .conflict
      | some slots =>
        match slots.1 with
        | none => .error .conflict
        | some m =>
          .ok { main := some { ip := m.ip, role := "main",
                               workspace_name := some m.ws_name,
                               workspace_id := some m.ws_id },
                backup := slots.2.map fun bb =>
                  { ip := bb.ip, role := "backup",
                    workspace_name := some bb.ws_name,
                    workspace_id := some bb.ws_id },
                aux := aux_ep }
    | .ok none =>
      let plains := cands.filter fun c => c.kind = "plain"
      match plains with
      | [] => .error .noResponders
      | [p] =>
        .ok { main := some { ip := p.ip, role := "main",
                             workspace_name := some p.ws_name,
                             workspace_id := some p.ws_id },
              backup := none, aux := aux_ep }
      | _ => .error .conflict

/-! ### Derived notions used to state and prove properties of
`decide_roles` -/

/-- A candidate that participates in the `by_base` grouping. -/
def Tagged (c : Candidate) : Prop :=
  c.kind = "main" ∨ c.kind = "backup"

instance (c : Candidate) : Decidable (Tagged c) := by
  unfold Tagged; infer_instance

/-- The unique `main`-tagged candidate of a base (the value stored in
`by_base[b]["main"]` when no duplicate exists). -/
def mainAt (l : List Candidate) (b : String) : Option Candidate :=
  l.find? fun c => c.kind == "main" && c.base == b

/-- The unique `backup`-tagged candidate of a base. -/
def backupAt (l : List Candidate) (b : String) : Option Candidate :=
  l.find? fun c => c.kind == "backup" && c.base == b

/-- The bases of the tagged candidates in first-occurrence order: the key
order of the `by_base` dictionary. -/
def baseOrder : List Candidate → List String → List String
  | [], acc => acc
  | c :: rest, acc =>
    baseOrder rest
      (if (decide (Tagged c)) && !(acc.contains c.base) then acc ++ [c.base]
       else acc)

/-- The `by_base` dictionary, written directly as a function of the
candidate list (valid when no duplicate `(base, kind)` pair exists). -/
def canonicalMap (l : List Candidate) : BaseMap :=
  (baseOrder l []).map fun b => (b, (mainAt l b, backupAt l b))

/-- No two tagged candidates share their `(base, kind)` pair: the
hypothesis under which the `by_base` grouping does not raise. -/
def TaggedNodup (l : List Candidate) : Prop :=
  l.Pairwise fun c d => Tagged c → Tagged d → ¬(c.base = d.base ∧ c.kind = d.kind)

instance (l : List Candidate) : Decidable (TaggedNodup l) := by
  unfold TaggedNodup; infer_instance

/-- A base owning both a `main`-tagged and a `backup`-tagged candidate. -/
def CompleteBase (l : List Candidate) (b : String) : Prop :=
  (∃ c ∈ l, c.kind = "main" ∧ c.base = b) ∧ (∃ c ∈ l, c.kind = "backup" ∧ c.base = b)

instance (l : List Candidate) (b : String) : Decidable (CompleteBase l b) := by
  unfold CompleteBase; infer_instance

/-- The slot of a `by_base` entry addressed by a kind. -/
def slotOf (e : String × (Option Candidate × Option Candidate)) (k : String) :
    Option Candidate :=
  if k = "main" then e.2.1 else e.2.2

/-- Some entry of the map carries base `b` with the `k` slot occupied. -/
def SlotFilled (m : BaseMap) (b k : String) : Prop :=
  ∃ e ∈ m, e.1 = b ∧ (slotOf e k).isSome

/-! ## `app/core.py`: `parse_workspaces` -/

/-- Python dictionary assignment `out[k] = v`: update in place if the key
exists, append otherwise. -/
def dictInsert (out : List (String × String)) (k v : String) :
    List (String × String) :=
  match out with
  | [] => [(k, v)]
  | e :: rest => if e.1 = k then (k, v) :: rest else e :: dictInsert rest k v

/-- `x == "ok"`-style comparison of an optional JSON value with a string
(`None != "ok"`, non-strings compare unequal). -/
def isStrVal (v : Option JValue) (s : String) : Bool :=
  match v with
  | some (.str t) => t == s
  | _ => false

/-- The Python-`or` chain selecting a workspace entry's name, then the
`isinstance(..., str)` filter, applied to one element of `data`; returns
the `(key, identifier)` pair inserted into the result, if any.
The key is the name after `name.replace(".qlab5", "").replace(".qlab4", "")`. -/
def wsEntry (it : JValue) : Option (String × String) :=
  match it with
  | .obj f =>
    match pyOr (pyOr (f.lookup "displayName") (f.lookup "name")) (f.lookup "fileName"),
          pyOr (pyOr (f.lookup "uniqueID") (f.lookup "id")) (f.lookup "workspace_id") with
    | some (.str n), some (.str u) =>
      some (pyReplace (pyReplace n ".qlab5" "") ".qlab4" "", u)
    | _, _ => none
  | _ => none

/-- `core.parse_workspaces`. -/
def parse_workspaces (reply : JValue) : List (String × String) :=
  match reply with
  | .obj fields =>
    if !(isStrVal (fields.lookup "status") "ok") then [] else
    match fields.lookup "data" with
    | some (.arr data) =>
      data.foldl
        (fun out it =>
          match wsEntry it with
          | some kv => dictInsert out kv.1 kv.2
          | none => out)
        []
    | _ => []
  | _ => []

/-- Modelled from the spec and the claim wording: `parse_workspaces` with
an arbitrary key function in place of the code's
`.replace(".qlab5", "").replace(".qlab4", "")`, everything else equal.
Used to compare the code against the claimed key computation. -/
def parse_workspaces_keyed (key : String → String) (reply : JValue) :
    List (String × String) :=
  match reply with
  | .obj fields =>
    if !(isStrVal (fields.lookup "status") "ok") then [] else
    match fields.lookup "data" with
    | some (.arr data) =>
      data.foldl
        (fun out it =>
          match it with
          | .obj f =>
            match pyOr (pyOr (f.lookup "displayName") (f.lookup "name"))
                    (f.lookup "fileName"),
                  pyOr (pyOr (f.lookup "uniqueID") (f.lookup "id"))
                    (f.lookup "workspace_id") with
            | some (.str n), some (.str u) => dictInsert out (key n) u
            | _, _ => out
          | _ => out)
        []
    | _ => []
  | _ => []

/-- The key computation as the claim states it: the file-format suffix
`.qlab5` or `.qlab4` stripped from the end of the name. -/
def stripFormatSuffix (n : String) : String :=
  if endsWithB n ".qlab5" then strDropRight n ".qlab5".length
  else if endsWithB n ".qlab4" then strDropRight n ".qlab4".length
  else n

/-- The key computation as the code performs it: every occurrence of
`.qlab5` removed, then every occurrence of `.qlab4` removed. -/
def removeFormatOccurrences (n : String) : String :=
  pyReplace (pyReplace n ".qlab5" "") ".qlab4" ""

/-! ## `app/core.py`: the inbound dispatcher `_osc_handler` -/

/-- The externally visible effects of one `_osc_handler` call on a parsed
JSON object: which waiter/discovery routing fired, whether
`mark_seen(src_ip)` ran, and whether the acknowledgement callback fired. -/
structure HandlerResult where
  workspacesRouted : Bool
  connectRouted : Bool
  markSeen : Bool
  ackFired : Bool
deriving DecidableEq, Repr

/-- `isinstance(x, str) and x` on an optional JSON value. -/
def optValidId (o : Option JValue) : Bool :=
  match o with
  | some v => validId v
  | none => false

/-- The cue-action reply suffixes of the fourth dispatch rule. -/
def ackSuffixes : List String :=
  ["/go", "/panic", "/stop", "/pause", "/resume", "/select/next", "/select/previous"]

/-- `core._osc_handler`, from the point where the payload has been parsed
into a JSON object `j` (byte decoding, the 200000-byte bound and non-object
payloads are upstream guards that simply drop the message).  `address` is
the envelope's OSC address; `roleKnown` abstracts
`role_from_ip(src_ip) and _on_ack`. -/
def osc_handler (address : String) (j : List (String × JValue))
    (roleKnown : Bool) : HandlerResult :=
  let invoked : JValue := (j.lookup "address").getD (.str "")
  let wsid := j.lookup "workspace_id"
  let status := j.lookup "status"
  if startsWithB address "/reply/workspaces" || isStrVal (some invoked) "/workspaces" then
    { workspacesRouted := true, connectRouted := false,
      markSeen := false, ackFired := false }
  else if (match invoked with
           | .str s => endsWithB s "/connect"
           | _ => false) && optValidId wsid then
    { workspacesRouted := false, connectRouted := true,
      markSeen := isStrVal status "ok", ackFired := false }
  else if (match invoked with
           | .str s => endsWithB s "/thump"
           | _ => false) && optValidId wsid then
    { workspacesRouted := false, connectRouted := false,
      markSeen := isStrVal status "ok", ackFired := false }
  else if isStrVal status "ok" && optValidId wsid then
    match invoked with
    | .str s =>
      if ackSuffixes.any fun suf => endsWithB s suf then
        { workspacesRouted := false, connectRouted := false,
          markSeen := true, ackFired := roleKnown }
      else
        { workspacesRouted := false, connectRouted := false,
          markSeen := false, ackFired := false }
    | _ =>
      { workspacesRouted := false, connectRouted := false,
        markSeen := false, ackFired := false }
  else
    { workspacesRouted := false, connectRouted := false,
      markSeen := false, ackFired := false }

/-! ## `app/daemon.py`: heartbeat throttle -/

/-- The mutable module dict `_last_thump_sent`, with its `.get(k, 0.0)`
read. -/
structure ThumpState where
  lastThump : String → ℚ

/-- `daemon.thump_fire`, reduced to its only state effect: the per-key
2-second gate in front of `send_ws(ip, wsid, "thump")`.  (The throttled
`ensure_app_flags` / `ensure_connected` calls keep their own timers and do
not interact with this gate.)  Returns the new state and, when a thump is
enqueued, the `(key, time)` of the send, with `key = ip + ":" + wsid` as in
the code. -/
def thump_fire (ep : Endpoint) (now : ℚ) (st : ThumpState) :
    ThumpState × Option (String × ℚ) :=
  match ep.workspace_id with
  | none => (st, none)
  | some w =>
    if w.isEmpty then (st, none) else
    let k := ep.ip ++ ":" ++ w
    if now - st.lastThump k < HEARTBEAT_INTERVAL then (st, none)
    else ({ lastThump := Function.update st.lastThump k now }, some (k, now))

/-- A sequence of `thump_fire` calls; returns the final state and the log
of enqueued thumps in order. -/
def runThumps : List (Endpoint × ℚ) → ThumpState → ThumpState × List (String × ℚ)
  | [], st => (st, [])
  | c :: rest, st =>
    let r := thump_fire c.1 c.2 st
    let rr := runThumps rest r.1
    (rr.1, r.2.toList ++ rr.2)

/-! ## `app/daemon.py`: offline backoff and reconcile -/

/-- The three roles. -/
inductive Role where
  | main
  | backup
  | aux
deriving DecidableEq, Repr

/-- The mutable module dicts `_last_reconcile`, `_offline_backoff` and
`_offline_next_try`, with their `.get(role, 0.0)` reads. -/
structure GateState where
  lastReconcile : Role → ℚ
  offlineBackoff : Role → ℚ
  offlineNextTry : Role → ℚ

/-- `daemon.offline_gate`. -/
def offline_gate (g : GateState) (role : Role) (now : ℚ) : Bool :=
  g.offlineNextTry role ≤ now

/-- `daemon.bump_offline_backoff`. -/
def bump_offline_backoff (g : GateState) (role : Role) (now : ℚ) : GateState :=
  let cur0 := g.offlineBackoff role
  let cur := if cur0 ≤ 0 then OFFLINE_BACKOFF_MIN
             else min OFFLINE_BACKOFF_MAX (cur0 * OFFLINE_BACKOFF_FACTOR)
  { g with offlineBackoff := Function.update g.offlineBackoff role cur,
           offlineNextTry := Function.update g.offlineNextTry role (now + cur) }

/-- `daemon.reset_offline_backoff`. -/
def reset_offline_backoff (g : GateState) (role : Role) : GateState :=
  { g with offlineBackoff := Function.update g.offlineBackoff role 0,
           offlineNextTry := Function.update g.offlineNextTry role 0 }

/-- `_last_reconcile[role] = now`. -/
def updLastReconcile (g : GateState) (role : Role) (now : ℚ) : GateState :=
  { g with lastReconcile := Function.update g.lastReconcile role now }

/-- One per-role entry of the persisted record's `endpoints` mapping. -/
structure RoleRec where
  ip : Option String := none
  workspace_name : Option String := none
  workspace_id : Option String := none
deriving DecidableEq, Repr

/-- The persisted pairing record (`state.json`), in the shape
`save_paired_state` writes and §6 of the specification documents. -/
structure PState where
  paired : Bool
  paired_at : ℚ
  qlab_port : ℤ
  pi_reply_port : ℤ
  expected_ws_main : String
  expected_ws_backup : String
  suffix_main : String
  suffix_backup : String
  suffix_aux1 : String
  endpoints : Role → Option RoleRec
  paused : Bool

/-- `st.setdefault("endpoints", {}).setdefault(role, {})` followed by the
two assignments of `workspace_id` and `workspace_name`. -/
def applyWsidUpdate (st : PState) (role : Role) (name newId : String) : PState :=
  let cur := (st.endpoints role).getD {}
  let rec2 : RoleRec := { cur with workspace_id := some newId, workspace_name := some name }
  { st with endpoints := Function.update st.endpoints role (some rec2) }

/-- The outcome of one `reconcile_endpoint` call: the returned Boolean, the
(possibly mutated) endpoint, the gate dictionaries and the persisted
record. -/
structure ReconcileResult where
  changed : Bool
  ep : Endpoint
  gates : GateState
  st : PState

/-- `daemon.reconcile_endpoint`.  `now` is the monotonic clock during the
call; `reply` is what `request_workspaces` returned (`none` on timeout,
otherwise the parsed reply object's fields).  `ensure_app_flags` and
`ensure_connected` keep no state modelled here. -/
def reconcile_endpoint (role : Role) (ep : Endpoint) (now : ℚ) (g : GateState)
    (st : PState) (reply : Option (List (String × JValue))) : ReconcileResult :=
  if !(offline_gate g role now) then ⟨false, ep, g, st⟩ else
  if now - g.lastReconcile role < RECONCILE_EVERY then ⟨false, ep, g, st⟩ else
  let g1 := updLastReconcile g role now
  match reply with
  | none => ⟨false, ep, bump_offline_backoff g1 role now, st⟩
  | some fields =>
    if fields.isEmpty then ⟨false, ep, bump_offline_backoff g1 role now, st⟩ else
    let wsmap := parse_workspaces (.obj fields)
    if wsmap.isEmpty then ⟨false, ep, bump_offline_backoff g1 role now, st⟩ else
    match ep.workspace_name with
    | none => ⟨false, ep, bump_offline_backoff g1 role now, st⟩
    | some desired =>
      if desired.isEmpty then ⟨false, ep, bump_offline_backoff g1 role now, st⟩ else
      match wsmap.lookup desired with
      | none => ⟨false, ep, bump_offline_backoff g1 role now, st⟩
      | some new_id =>
        if new_id.isEmpty then ⟨false, ep, bump_offline_backoff g1 role now, st⟩ else
        if some new_id ≠ ep.workspace_id then
          ⟨true, { ep with workspace_id := some new_id },
           reset_offline_backoff g1 role, applyWsidUpdate st role desired new_id⟩
        else
          ⟨false, ep, reset_offline_backoff g1 role, st⟩

/-- Both early-return gates of `reconcile_endpoint` pass: the call performs
its reconcile work. -/
def reconcile_gates_pass (g : GateState) (role : Role) (now : ℚ) : Bool :=
  offline_gate g role now && !(decide (now - g.lastReconcile role < RECONCILE_EVERY))

/-- The reconcile work succeeds (the branch structure of
`reconcile_endpoint` between the gates and `reset_offline_backoff`): the
reply parsed, the desired name was present and its identifier was a
non-empty string.  Exactly when this holds does the call reset the backoff
instead of bumping it. -/
def reconcile_ok (ep : Endpoint) (reply : Option (List (String × JValue))) : Bool :=
  match reply with
  | none => false
  | some fields =>
    if fields.isEmpty then false else
    let wsmap := parse_workspaces (.obj fields)
    if wsmap.isEmpty then false else
    match ep.workspace_name with
    | none => false
    | some desired =>
      if desired.isEmpty then false else
      match wsmap.lookup desired with
      | none => false
      | some new_id => !new_id.isEmpty

/-- A sequence of `reconcile_endpoint` calls; logs `(role, time)` for every
call that performs its work. -/
def runReconciles :
    List (Role × Endpoint × ℚ × Option (List (String × JValue))) →
    GateState → PState → GateState × PState × List (Role × ℚ)
  | [], g, st => (g, st, [])
  | c :: rest, g, st =>
    let r := reconcile_endpoint c.1 c.2.1 c.2.2.1 g st c.2.2.2
    let rr := runReconciles rest r.gates r.st
    (rr.1, rr.2.1,
     (if reconcile_gates_pass g c.1 c.2.2.1 then [(c.1, c.2.2.1)] else []) ++ rr.2.2)

/-! ## `app/daemon.py`: LED blink target -/

/-- Python `int()` on a float: truncation toward zero. -/
def pyTrunc (q : ℚ) : ℤ :=
  if 0 ≤ q then ⌊q⌋ else ⌈q⌉

/-- `LEDWorker._blink_on`. -/
def blink_on (now toggle_sec : ℚ) : Bool :=
  pyTrunc (now / toggle_sec) % 2 = 0

/-- `MASTER_DIM` clamped to `[0, 1]` (`daemon.dim`).  The float literal
`0.18` is within a rounding error of `18/100`; no verified property
depends on its exact value. -/
def dimFactor : ℚ :=
  max 0 (min 1 (18 / 100))

/-- `daemon.dim`: master-dim an RGB triple, truncating to integers. -/
def dimColor (c : ℤ × ℤ × ℤ) : ℤ × ℤ × ℤ :=
  (pyTrunc (c.1 * dimFactor), pyTrunc (c.2.1 * dimFactor), pyTrunc (c.2.2 * dimFactor))

/-- `daemon.C_OFF`. -/
def C_OFF : ℤ × ℤ × ℤ := (0, 0, 0)

/-- The pre-fade target color computed by one iteration of
`LEDWorker.run` for a pixel with steady color `steady`, blink flag
`do_blink` and blink half-period `toggle`. -/
def led_target (steady : ℤ × ℤ × ℤ) (do_blink : Bool) (toggle now : ℚ) :
    ℤ × ℤ × ℤ :=
  if do_blink && !(blink_on now toggle) then dimColor C_OFF else steady

/-! # Theorems

## The string order -/

theorem lexLe_total : ∀ a b : List Char, lexLe a b = true ∨ lexLe b a = true := by
  intro a
  induction a with
  | nil => intro b; left; rfl
  | cons x xs ih =>
    intro b
    cases b with
    | nil => right; rfl
    | cons y ys =>
      rcases lt_trichotomy x y with h | h | h
      · left; simp [lexLe, h]
      · subst h
        rcases ih ys with h2 | h2
        · left; simp [lexLe, h2]
        · right; simp [lexLe, h2]
      · right; simp [lexLe, h]

theorem lexLe_trans : ∀ a b c : List Char,
    lexLe a b = true → lexLe b c = true → lexLe a c = true := by
  intro a
  induction a with
  | nil => intro b c _ _; rfl
  | cons x xs ih =>
    intro b c hab hbc
    cases b with
    | nil => simp [lexLe] at hab
    | cons y ys =>
      cases c with
      | nil => simp [lexLe] at hbc
      | cons z zs =>
        simp only [lexLe] at hab hbc ⊢
        by_cases hxy : x < y
        · by_cases hyz : y < z
          · simp [lt_trans hxy hyz]
          · by_cases hyz2 : y = z
            · subst hyz2; simp [hxy]
            · simp [hyz, hyz2] at hbc
        · by_cases hxy2 : x = y
          · subst hxy2
            by_cases hyz : x < z
            · simp [hyz]
            · by_cases hyz2 : x = z
              · subst hyz2
                simp only [lt_irrefl, if_false, if_pos rfl] at hab hbc ⊢
                exact ih ys zs hab hbc
              · simp [hyz, hyz2] at hbc
          · simp [hxy, hxy2] at hab

theorem lexLe_antisymm : ∀ a b : List Char,
    lexLe a b = true → lexLe b a = true → a = b := by
  intro a
  induction a with
  | nil =>
    intro b _ hba
    cases b with
    | nil => rfl
    | cons y ys => simp [lexLe] at hba
  | cons x xs ih =>
    intro b hab hba
    cases b with
    | nil => simp [lexLe] at hab
    | cons y ys =>
      simp only [lexLe] at hab hba
      by_cases hxy : x < y
      · have : ¬ y < x := lt_asymm hxy
        have : ¬ y = x := fun he => absurd (he ▸ hxy) (lt_irrefl x)
        simp [*] at hba
      · by_cases hxy2 : x = y
        · subst hxy2
          simp only [lt_irrefl, if_false, if_pos rfl] at hab hba
          exact congrArg (x :: ·) (ih ys hab hba)
        · simp [hxy, hxy2] at hab

theorem pyStrLe_total (a b : String) : strLeRel a b ∨ strLeRel b a :=
  lexLe_total a.data b.data

theorem pyStrLe_trans {a b c : String} (h1 : strLeRel a b) (h2 : strLeRel b c) :
    strLeRel a c :=
  lexLe_trans a.data b.data c.data h1 h2

theorem pyStrLe_antisymm {a b : String} (h1 : strLeRel a b) (h2 : strLeRel b a) :
    a = b := by
  cases a with
  | mk da =>
    cases b with
    | mk db => exact congrArg String.mk (lexLe_antisymm da db h1 h2)

/-- The head of the sorted list is the minimum: what
`complete_bases.sort(); complete_bases[0]` selects. -/
theorem insertionSort_head_min (l : List String) (b : String) (hb : b ∈ l)
    (hmin : ∀ x ∈ l, strLeRel b x) :
    (l.insertionSort strLeRel).head? = some b := by
  haveI htot : IsTotal String strLeRel := ⟨pyStrLe_total⟩
  haveI htr : IsTrans String strLeRel := ⟨fun _ _ _ => pyStrLe_trans⟩
  have hs := List.sorted_insertionSort strLeRel l
  have hp := List.perm_insertionSort strLeRel l
  cases he : l.insertionSort strLeRel with
  | nil =>
    rw [he] at hp
    rw [← hp.nil_eq] at hb
    cases hb
  | cons x xs =>
    rw [he] at hs hp
    have hxl : x ∈ l := hp.subset (List.mem_cons_self x xs)
    have hbx : strLeRel b x := hmin x hxl
    have hbs : b ∈ x :: xs := hp.mem_iff.mpr hb
    rcases List.mem_cons.mp hbs with hbe | hbm
    · simp [hbe]
    · have hxb : strLeRel x b := List.rel_of_sorted_cons hs b hbm
      simp [pyStrLe_antisymm hbx hxb]

/-! ## Generic list helpers -/

/-- `find?` returns the element when the predicate has a unique holder. -/
theorem find?_eq_some_of_unique {α : Type} {p : α → Bool} {l : List α} {c : α}
    (hc : c ∈ l) (hpc : p c = true)
    (huniq : l.Pairwise fun a b => ¬(p a = true ∧ p b = true)) :
    l.find? p = some c := by
  induction l with
  | nil => cases hc
  | cons a as ih =>
    rcases List.pairwise_cons.mp huniq with ⟨hhead, htail⟩
    by_cases hpa : p a = true
    · have hca : c = a := by
        rcases List.mem_cons.mp hc with h | h
        · exact h
        · exact absurd ⟨hpa, hpc⟩ (hhead c h)
      rw [List.find?_cons, hpa, hca]
    · have hcm : c ∈ as := by
        rcases List.mem_cons.mp hc with h | h
        · exact absurd (h ▸ hpc) hpa
        · exact h
      rw [List.find?_cons]
      simp only [Bool.not_eq_true] at hpa
      rw [hpa]
      exact ih hcm htail

/-- `lookup` on a map whose values are a function of the key. -/
theorem lookup_map_key {β : Type} (bo : List String) (F : String → β) (b : String)
    (hb : b ∈ bo) :
    List.lookup b (bo.map fun x => (x, F x)) = some (F b) := by
  induction bo with
  | nil => cases hb
  | cons x xs ih =>
    by_cases hbx : b = x
    · subst hbx
      simp [List.lookup]
    · rcases List.mem_cons.mp hb with h | h
      · exact absurd h hbx
      · simpa [List.lookup, beq_false_of_ne hbx] using ih h

/-- Splitting a list around two distinct members. -/
theorem mem_mem_split {α : Type} {l : List α} {c d : α} (hc : c ∈ l) (hd : d ∈ l)
    (hne : c ≠ d) :
    (∃ l1 l2 l3, l = l1 ++ c :: (l2 ++ d :: l3)) ∨
      (∃ l1 l2 l3, l = l1 ++ d :: (l2 ++ c :: l3)) := by
  obtain ⟨s, t, rfl⟩ := List.append_of_mem hc
  rcases List.mem_append.mp hd with hds | hdt
  · obtain ⟨u, v, rfl⟩ := List.append_of_mem hds
    right
    exact ⟨u, v, t, by simp⟩
  · rcases List.mem_cons.mp hdt with he | hdt2
    · exact absurd he.symm hne
    · obtain ⟨u, v, rfl⟩ := List.append_of_mem hdt2
      left
      exact ⟨s, u, v, by simp⟩

/-! ## Properties of the candidate list -/

/-- Every discovered workspace with a non-empty string identifier yields a
candidate. -/
theorem mem_candidatesOf {responders : List (String × List (String × JValue))}
    {ip n s : String} {ws : List (String × JValue)}
    (hr : (ip, ws) ∈ responders) (hn : (n, JValue.str s) ∈ ws) (hs : s ≠ "") :
    (⟨ip, n, s, (classify n).1, (classify n).2⟩ : Candidate) ∈
      candidatesOf responders := by
  unfold candidatesOf
  rw [List.mem_flatMap]
  refine ⟨(ip, ws), hr, ?_⟩
  rw [List.mem_filterMap]
  refine ⟨(n, .str s), hn, ?_⟩
  have : s.isEmpty = false := by
    cases he : s.isEmpty
    · rfl
    · exact absurd ((String.isEmpty_iff _).mp he) hs
  simp [this]

/-- Candidates come only from responder entries, and carry the classifier's
kind and base for their own name. -/
theorem candidatesOf_spec {responders : List (String × List (String × JValue))}
    {c : Candidate} (hc : c ∈ candidatesOf responders) :
    (∃ ws, (c.ip, ws) ∈ responders ∧ (c.ws_name, JValue.str c.ws_id) ∈ ws) ∧
      c.ws_id ≠ "" ∧ c.kind = (classify c.ws_name).1 ∧ c.base = (classify c.ws_name).2 := by
  unfold candidatesOf at hc
  rw [List.mem_flatMap] at hc
  obtain ⟨p, hp, hcp⟩ := hc
  rw [List.mem_filterMap] at hcp
  obtain ⟨q, hq, hqc⟩ := hcp
  cases q with
  | mk qn qv =>
    cases qv with
    | str s =>
      by_cases hse : s.isEmpty
      · simp [hse] at hqc
      · simp only [Bool.not_eq_true] at hse
        simp only [hse, if_false] at hqc
        cases hqc
        refine ⟨⟨p.2, ?_, hq⟩, ?_, rfl, rfl⟩
        · exact hp
        · intro he
          have he2 : s = "" := he
          rw [he2] at hse
          exact absurd hse (by decide)
    | num q => simp at hqc
    | bool b => simp at hqc
    | null => simp at hqc
    | arr xs => simp at hqc
    | obj fs => simp at hqc

/-! ## Properties of the `by_base` grouping -/

theorem buildByBase_append (l1 l2 : List Candidate) (acc : BaseMap) :
    buildByBase (l1 ++ l2) acc =
      match buildByBase l1 acc with
      | .error e => .error e
      | .ok m => buildByBase l2 m := by
  induction l1 generalizing acc with
  | nil => rfl
  | cons c rest ih =>
    simp only [List.cons_append, buildByBase]
    by_cases ht : c.kind = "main" ∨ c.kind = "backup"
    · simp only [if_pos ht]
      cases bbInsert c acc with
      | error e => rfl
      | ok acc2 => exact ih acc2
    · simp only [if_neg ht]
      exact ih acc

theorem bbInsert_error_conflict {c : Candidate} {m : BaseMap} {e : PairingError}
    (h : bbInsert c m = .error e) : e = .conflict := by
  induction m with
  | nil => simp [bbInsert] at h
  | cons x rest ih =>
    simp only [bbInsert] at h
    by_cases hx : x.1 = c.base
    · simp only [if_pos hx] at h
      by_cases hk : c.kind = "main"
      · simp only [if_pos hk] at h
        cases hslot : x.2.1 with
        | some _ => rw [hslot] at h; cases h; rfl
        | none => rw [hslot] at h; cases h
      · simp only [if_neg hk] at h
        cases hslot : x.2.2 with
        | some _ => rw [hslot] at h; cases h; rfl
        | none => rw [hslot] at h; cases h
    · simp only [if_neg hx] at h
      cases hrec : bbInsert c rest with
      | error e2 =>
        rw [hrec] at h
        cases h
        exact ih hrec
      | ok r => rw [hrec] at h; cases h

theorem buildByBase_error_conflict {l : List Candidate} {acc : BaseMap}
    {e : PairingError} (h : buildByBase l acc = .error e) : e = .conflict := by
  induction l generalizing acc with
  | nil => simp [buildByBase] at h
  | cons c rest ih =>
    simp only [buildByBase] at h
    by_cases ht : c.kind = "main" ∨ c.kind = "backup"
    · simp only [if_pos ht] at h
      cases hins : bbInsert c acc with
      | error e2 =>
        rw [hins] at h
        cases h
        exact bbInsert_error_conflict hins
      | ok acc2 =>
        rw [hins] at h
        exact ih h
    · simp only [if_neg ht] at h
      exact ih h

theorem bbInsert_keys {c : Candidate} {m m2 : BaseMap} (h : bbInsert c m = .ok m2) :
    m2.map Prod.fst = m.map Prod.fst ∨
      (m2.map Prod.fst = m.map Prod.fst ++ [c.base] ∧ c.base ∉ m.map Prod.fst) := by
  induction m generalizing m2 with
  | nil =>
    simp only [bbInsert] at h
    cases h
    right
    simp
  | cons x rest ih =>
    simp only [bbInsert] at h
    by_cases hx : x.1 = c.base
    · simp only [if_pos hx] at h
      by_cases hk : c.kind = "main"
      · simp only [if_pos hk] at h
        cases hslot : x.2.1 with
        | some _ => rw [hslot] at h; cases h
        | none => rw [hslot] at h; cases h; left; simp [hx]
      · simp only [if_neg hk] at h
        cases hslot : x.2.2 with
        | some _ => rw [hslot] at h; cases h
        | none => rw [hslot] at h; cases h; left; simp [hx]
    · simp only [if_neg hx] at h
      cases hrec : bbInsert c rest with
      | error e2 => rw [hrec] at h; cases h
      | ok r =>
        rw [hrec] at h
        cases h
        rcases ih hrec with h2 | ⟨h2, h3⟩
        · left; simp [h2]
        · right
          constructor
          · simp [h2]
          · simp only [List.map_cons, List.mem_cons]
            rintro (he | hm)
            · exact hx he.symm
            · exact h3 hm

theorem bbInsert_keys_nodup {c : Candidate} {m m2 : BaseMap}
    (h : bbInsert c m = .ok m2) (hnd : (m.map Prod.fst).Nodup) :
    (m2.map Prod.fst).Nodup := by
  rcases bbInsert_keys h with h2 | ⟨h2, h3⟩
  · rw [h2]; exact hnd
  · rw [h2]
    simp [List.nodup_append, hnd, h3]

theorem bbInsert_filled_conflict {c : Candidate} {m : BaseMap}
    (hnd : (m.map Prod.fst).Nodup) (hf : SlotFilled m c.base c.kind) :
    bbInsert c m = .error .conflict := by
  induction m with
  | nil =>
    obtain ⟨e, he, _⟩ := hf
    cases he
  | cons x rest ih =>
    simp only [List.map_cons, List.nodup_cons] at hnd
    obtain ⟨e, he, heb, hes⟩ := hf
    simp only [bbInsert]
    by_cases hx : x.1 = c.base
    · simp only [if_pos hx]
      have hex : e = x := by
        rcases List.mem_cons.mp he with h | h
        · exact h
        · exfalso
          have hmm : e.1 ∈ rest.map Prod.fst := List.mem_map.mpr ⟨e, h, rfl⟩
          rw [heb, ← hx] at hmm
          exact hnd.1 hmm
      subst hex
      by_cases hk : c.kind = "main"
      · simp only [if_pos hk]
        unfold slotOf at hes
        rw [if_pos hk] at hes
        cases hslot : e.2.1 with
        | some _ => rfl
        | none => rw [hslot] at hes; simp at hes
      · simp only [if_neg hk]
        unfold slotOf at hes
        rw [if_neg hk] at hes
        cases hslot : e.2.2 with
        | some _ => rfl
        | none => rw [hslot] at hes; simp at hes
    · simp only [if_neg hx]
      have hem : e ∈ rest := by
        rcases List.mem_cons.mp he with h | h
        · exact absurd (h ▸ heb) hx
        · exact h
      rw [ih hnd.2 ⟨e, hem, heb, hes⟩]

theorem bbInsert_preserves_filled {c : Candidate} {m m2 : BaseMap} {b k : String}
    (h : bbInsert c m = .ok m2) (hf : SlotFilled m b k) : SlotFilled m2 b k := by
  induction m generalizing m2 with
  | nil =>
    obtain ⟨e, he, _⟩ := hf
    cases he
  | cons x rest ih =>
    obtain ⟨e, he, heb, hes⟩ := hf
    simp only [bbInsert] at h
    by_cases hx : x.1 = c.base
    · simp only [if_pos hx] at h
      by_cases hk : c.kind = "main"
      · simp only [if_pos hk] at h
        cases hslot : x.2.1 with
        | some _ => rw [hslot] at h; cases h
        | none =>
          rw [hslot] at h
          cases h
          rcases List.mem_cons.mp he with hex | hem
          · subst hex
            refine ⟨(e.1, (some c, e.2.2)), List.mem_cons_self _ _, heb, ?_⟩
            unfold slotOf at hes ⊢
            by_cases hk2 : k = "main"
            · simp [hk2]
            · rw [if_neg hk2] at hes ⊢
              exact hes
          · exact ⟨e, List.mem_cons_of_mem _ hem, heb, hes⟩
      · simp only [if_neg hk] at h
        cases hslot : x.2.2 with
        | some _ => rw [hslot] at h; cases h
        | none =>
          rw [hslot] at h
          cases h
          rcases List.mem_cons.mp he with hex | hem
          · subst hex
            refine ⟨(e.1, (e.2.1, some c)), List.mem_cons_self _ _, heb, ?_⟩
            unfold slotOf at hes ⊢
            by_cases hk2 : k = "main"
            · rw [if_pos hk2] at hes ⊢
              exact hes
            · simp [hk2]
          · exact ⟨e, List.mem_cons_of_mem _ hem, heb, hes⟩
    · simp only [if_neg hx] at h
      cases hrec : bbInsert c rest with
      | error e2 => rw [hrec] at h; cases h
      | ok r =>
        rw [hrec] at h
        cases h
        rcases List.mem_cons.mp he with hex | hem
        · subst hex
          exact ⟨e, List.mem_cons_self _ _, heb, hes⟩
        · obtain ⟨e2, he2, he2b, he2s⟩ := ih hrec ⟨e, hem, heb, hes⟩
          exact ⟨e2, List.mem_cons_of_mem _ he2, he2b, he2s⟩

theorem bbInsert_makes_filled {c : Candidate} {m m2 : BaseMap}
    (h : bbInsert c m = .ok m2) : SlotFilled m2 c.base c.kind := by
  induction m generalizing m2 with
  | nil =>
    simp only [bbInsert] at h
    cases h
    by_cases hk : c.kind = "main"
    · exact ⟨_, List.mem_cons_self _ _, rfl, by simp [slotOf, hk]⟩
    · exact ⟨_, List.mem_cons_self _ _, rfl, by simp [slotOf, hk]⟩
  | cons x rest ih =>
    simp only [bbInsert] at h
    by_cases hx : x.1 = c.base
    · simp only [if_pos hx] at h
      by_cases hk : c.kind = "main"
      · simp only [if_pos hk] at h
        cases hslot : x.2.1 with
        | some _ => rw [hslot] at h; cases h
        | none =>
          rw [hslot] at h
          cases h
          exact ⟨(x.1, (some c, x.2.2)), List.mem_cons_self _ _, hx, by simp [slotOf, hk]⟩
      · simp only [if_neg hk] at h
        cases hslot : x.2.2 with
        | some _ => rw [hslot] at h; cases h
        | none =>
          rw [hslot] at h
          cases h
          exact ⟨(x.1, (x.2.1, some c)), List.mem_cons_self _ _, hx, by simp [slotOf, hk]⟩
    · simp only [if_neg hx] at h
      cases hrec : bbInsert c rest with
      | error e2 => rw [hrec] at h; cases h
      | ok r =>
        rw [hrec] at h
        cases h
        obtain ⟨e2, he2, he2b, he2s⟩ := ih hrec
        exact ⟨e2, List.mem_cons_of_mem _ he2, he2b, he2s⟩

/-- Running invariant of the grouping loop: unique keys, filled slots stay
filled, and every processed tagged candidate has its slot filled. -/
theorem buildByBase_invariant :
    ∀ (l : List Candidate) (acc m : BaseMap), buildByBase l acc = .ok m →
      (acc.map Prod.fst).Nodup →
      (m.map Prod.fst).Nodup ∧
        (∀ b k, SlotFilled acc b k → SlotFilled m b k) ∧
        ∀ c ∈ l, Tagged c → SlotFilled m c.base c.kind := by
  intro l
  induction l with
  | nil =>
    intro acc m h hnd
    simp only [buildByBase] at h
    cases h
    exact ⟨hnd, fun _ _ hf => hf, by simp⟩
  | cons c rest ih =>
    intro acc m h hnd
    simp only [buildByBase] at h
    by_cases ht : c.kind = "main" ∨ c.kind = "backup"
    · simp only [if_pos ht] at h
      cases hins : bbInsert c acc with
      | error e2 => rw [hins] at h; cases h
      | ok acc2 =>
        rw [hins] at h
        obtain ⟨hm1, hm2, hm3⟩ := ih acc2 m h (bbInsert_keys_nodup hins hnd)
        refine ⟨hm1, ?_, ?_⟩
        · exact fun b k hf => hm2 b k (bbInsert_preserves_filled hins hf)
        · intro d hd htd
          rcases List.mem_cons.mp hd with hdc | hdm
          · subst hdc
            exact hm2 d.base d.kind (bbInsert_makes_filled hins)
          · exact hm3 d hdm htd
    · simp only [if_neg ht] at h
      obtain ⟨hm1, hm2, hm3⟩ := ih acc m h hnd
      refine ⟨hm1, hm2, ?_⟩
      intro d hd htd
      rcases List.mem_cons.mp hd with hdc | hdm
      · exact absurd (hdc ▸ htd) ht
      · exact hm3 d hdm htd

/-- A duplicate tagged `(base, kind)` pair makes the grouping raise
`ConflictError`. -/
theorem buildByBase_dup_conflict {l1 l2 l3 : List Candidate} {c d : Candidate}
    (htc : Tagged c) (hbase : c.base = d.base) (hkind : c.kind = d.kind) :
    buildByBase (l1 ++ c :: (l2 ++ d :: l3)) [] = .error .conflict := by
  cases hres : buildByBase (l1 ++ c :: (l2 ++ d :: l3)) [] with
  | error e => rw [buildByBase_error_conflict hres]
  | ok m =>
    exfalso
    rw [buildByBase_append] at hres
    cases h1 : buildByBase l1 [] with
    | error e1 => rw [h1] at hres; cases hres
    | ok m1 =>
      rw [h1] at hres
      have htc' : c.kind = "main" ∨ c.kind = "backup" := htc
      simp only [buildByBase, if_pos htc'] at hres
      cases hins : bbInsert c m1 with
      | error e2 => rw [hins] at hres; cases hres
      | ok m2 =>
        rw [hins] at hres
        dsimp only at hres
        rw [buildByBase_append] at hres
        cases h2 : buildByBase l2 m2 with
        | error e2 => rw [h2] at hres; cases hres
        | ok m3 =>
          rw [h2] at hres
          have htd : d.kind = "main" ∨ d.kind = "backup" := by
            rw [← hkind]
            exact htc
          simp only [buildByBase, if_pos htd] at hres
          have hnd1 : (m1.map Prod.fst).Nodup :=
            (buildByBase_invariant l1 [] m1 h1 (by simp)).1
          have hnd2 : (m2.map Prod.fst).Nodup := bbInsert_keys_nodup hins hnd1
          obtain ⟨hnd3, hpres, _⟩ := buildByBase_invariant l2 m2 m3 h2 hnd2
          have hfill : SlotFilled m3 d.base d.kind := by
            rw [← hbase, ← hkind]
            exact hpres c.base c.kind (bbInsert_makes_filled hins)
          rw [bbInsert_filled_conflict hnd3 hfill] at hres
          cases hres

/-! ## The canonical form of the `by_base` dictionary -/

theorem baseOrder_append (l1 l2 : List Candidate) (acc : List String) :
    baseOrder (l1 ++ l2) acc = baseOrder l2 (baseOrder l1 acc) := by
  induction l1 generalizing acc with
  | nil => rfl
  | cons c rest ih =>
    simp only [List.cons_append, baseOrder]
    exact ih _

theorem mem_baseOrder (l : List Candidate) (acc : List String) (b : String) :
    b ∈ baseOrder l acc ↔ b ∈ acc ∨ ∃ c, c ∈ l ∧ Tagged c ∧ c.base = b := by
  induction l generalizing acc with
  | nil => simp [baseOrder]
  | cons c rest ih =>
    simp only [baseOrder]
    rw [ih]
    by_cases ht : Tagged c
    · by_cases hmem : acc.contains c.base
      · have hmem2 : c.base ∈ acc := by
          rw [List.contains_iff_exists_mem_beq] at hmem
          obtain ⟨a, ha, hab⟩ := hmem
          rw [beq_iff_eq] at hab
          rw [hab]
          exact ha
        simp only [decide_eq_true ht, hmem, Bool.true_and, Bool.not_true,
          Bool.false_eq_true, if_false]
        constructor
        · rintro (h | ⟨cc, hc, htc, hcb⟩)
          · exact Or.inl h
          · exact Or.inr ⟨cc, List.mem_cons_of_mem _ hc, htc, hcb⟩
        · rintro (h | ⟨cc, hc, htc, hcb⟩)
          · exact Or.inl h
          · rcases List.mem_cons.mp hc with hcc | hcc
            · subst hcc
              exact Or.inl (hcb ▸ hmem2)
            · exact Or.inr ⟨cc, hcc, htc, hcb⟩
      · simp only [decide_eq_true ht, hmem, Bool.true_and, Bool.not_false, if_true]
        simp only [List.mem_append, List.mem_singleton]
        constructor
        · rintro ((h | h) | ⟨cc, hc, htc, hcb⟩)
          · exact Or.inl h
          · exact Or.inr ⟨c, List.mem_cons_self _ _, ht, h.symm⟩
          · exact Or.inr ⟨cc, List.mem_cons_of_mem _ hc, htc, hcb⟩
        · rintro (h | ⟨cc, hc, htc, hcb⟩)
          · exact Or.inl (Or.inl h)
          · rcases List.mem_cons.mp hc with hcc | hcc
            · subst hcc
              exact Or.inl (Or.inr hcb.symm)
            · exact Or.inr ⟨cc, hcc, htc, hcb⟩
    · simp only [decide_eq_false ht, Bool.false_and, Bool.false_eq_true, if_false]
      constructor
      · rintro (h | ⟨cc, hc, htc, hcb⟩)
        · exact Or.inl h
        · exact Or.inr ⟨cc, List.mem_cons_of_mem _ hc, htc, hcb⟩
      · rintro (h | ⟨cc, hc, htc, hcb⟩)
        · exact Or.inl h
        · rcases List.mem_cons.mp hc with hcc | hcc
          · exact absurd (hcc ▸ htc) ht
          · exact Or.inr ⟨cc, hcc, htc, hcb⟩

theorem baseOrder_nodup (l : List Candidate) (acc : List String)
    (hnd : acc.Nodup) : (baseOrder l acc).Nodup := by
  induction l generalizing acc with
  | nil => exact hnd
  | cons c rest ih =>
    simp only [baseOrder]
    by_cases hcond : (decide (Tagged c) && !acc.contains c.base) = true
    · rw [if_pos hcond]
      refine ih _ ?_
      rw [Bool.and_eq_true] at hcond
      have hnm : c.base ∉ acc := by
        intro hmem
        have : acc.contains c.base := by
          rw [List.contains_iff_exists_mem_beq]
          exact ⟨c.base, hmem, beq_self_eq_true _⟩
        rw [this] at hcond
        simp at hcond
      simp [List.nodup_append, hnd, hnm]
    · rw [if_neg hcond]
      exact ih _ hnd

theorem mainAt_append (l1 l2 : List Candidate) (b : String) :
    mainAt (l1 ++ l2) b = (mainAt l1 b).or (mainAt l2 b) :=
  List.find?_append

theorem backupAt_append (l1 l2 : List Candidate) (b : String) :
    backupAt (l1 ++ l2) b = (backupAt l1 b).or (backupAt l2 b) :=
  List.find?_append

theorem mainAt_none_of_notMem_baseOrder (l : List Candidate) (b : String)
    (h : b ∉ baseOrder l []) : mainAt l b = none := by
  cases hf : mainAt l b with
  | none => rfl
  | some c =>
    exfalso
    have hc : c ∈ l := List.mem_of_find?_eq_some hf
    have hp := List.find?_some hf
    simp only [Bool.and_eq_true, beq_iff_eq] at hp
    exact h ((mem_baseOrder l [] b).mpr (Or.inr ⟨c, hc, Or.inl hp.1, hp.2⟩))

theorem backupAt_none_of_notMem_baseOrder (l : List Candidate) (b : String)
    (h : b ∉ baseOrder l []) : backupAt l b = none := by
  cases hf : backupAt l b with
  | none => rfl
  | some c =>
    exfalso
    have hc : c ∈ l := List.mem_of_find?_eq_some hf
    have hp := List.find?_some hf
    simp only [Bool.and_eq_true, beq_iff_eq] at hp
    exact h ((mem_baseOrder l [] b).mpr (Or.inr ⟨c, hc, Or.inr hp.1, hp.2⟩))

theorem strContains_iff (acc : List String) (b : String) :
    acc.contains b = true ↔ b ∈ acc := by
  rw [List.contains_iff_exists_mem_beq]
  constructor
  · rintro ⟨a, ha, hab⟩
    rw [beq_iff_eq] at hab
    rw [hab]
    exact ha
  · intro h
    exact ⟨b, h, beq_self_eq_true _⟩

theorem baseOrder_snoc_skip (l : List Candidate) (c : Candidate)
    (h : ¬(Tagged c) ∨ c.base ∈ baseOrder l []) :
    baseOrder (l ++ [c]) [] = baseOrder l [] := by
  rw [baseOrder_append]
  rcases h with h | h
  · simp [baseOrder, decide_eq_false h]
  · simp [baseOrder, (strContains_iff _ _).mpr h]
    exact fun _ => h

theorem baseOrder_snoc_new (l : List Candidate) (c : Candidate)
    (ht : Tagged c) (h : c.base ∉ baseOrder l []) :
    baseOrder (l ++ [c]) [] = baseOrder l [] ++ [c.base] := by
  rw [baseOrder_append]
  have hcf : (baseOrder l []).contains c.base = false := by
    rw [Bool.eq_false_iff]
    intro hh
    exact h ((strContains_iff _ _).mp hh)
  simp [baseOrder, decide_eq_true ht, hcf]
  exact h

theorem mainAt_snoc_other (l : List Candidate) (c : Candidate) (b : String)
    (h : ¬(c.kind = "main" ∧ c.base = b)) : mainAt (l ++ [c]) b = mainAt l b := by
  rw [mainAt_append]
  have hc : (c.kind == "main" && c.base == b) = false := by
    rw [Bool.eq_false_iff]
    intro hcond
    rw [Bool.and_eq_true, beq_iff_eq, beq_iff_eq] at hcond
    exact h hcond
  have : mainAt [c] b = none := by
    simp only [mainAt, List.find?, hc]
  rw [this, Option.or_none]

theorem mainAt_snoc_self (l : List Candidate) (c : Candidate) (b : String)
    (hk : c.kind = "main") (hb : c.base = b) (hnone : mainAt l b = none) :
    mainAt (l ++ [c]) b = some c := by
  rw [mainAt_append, hnone]
  have hc : (c.kind == "main" && c.base == b) = true := by
    rw [Bool.and_eq_true, beq_iff_eq, beq_iff_eq]
    exact ⟨hk, hb⟩
  simp only [mainAt, List.find?, hc, Option.or]

theorem backupAt_snoc_other (l : List Candidate) (c : Candidate) (b : String)
    (h : ¬(c.kind = "backup" ∧ c.base = b)) : backupAt (l ++ [c]) b = backupAt l b := by
  rw [backupAt_append]
  have hc : (c.kind == "backup" && c.base == b) = false := by
    rw [Bool.eq_false_iff]
    intro hcond
    rw [Bool.and_eq_true, beq_iff_eq, beq_iff_eq] at hcond
    exact h hcond
  have : backupAt [c] b = none := by
    simp only [backupAt, List.find?, hc]
  rw [this, Option.or_none]

theorem backupAt_snoc_self (l : List Candidate) (c : Candidate) (b : String)
    (hk : c.kind = "backup") (hb : c.base = b) (hnone : backupAt l b = none) :
    backupAt (l ++ [c]) b = some c := by
  rw [backupAt_append, hnone]
  have hc : (c.kind == "backup" && c.base == b) = true := by
    rw [Bool.and_eq_true, beq_iff_eq, beq_iff_eq]
    exact ⟨hk, hb⟩
  simp only [backupAt, List.find?, hc, Option.or]

theorem bbInsert_update_main (bo : List String) (c : Candidate)
    (f g : String → Option Candidate) (hnd : bo.Nodup) (hmem : c.base ∈ bo)
    (hk : c.kind = "main") (hf : f c.base = none) :
    bbInsert c (bo.map fun b => (b, (f b, g b))) =
      .ok (bo.map fun b => (b, ((if b = c.base then some c else f b), g b))) := by
  induction bo with
  | nil => cases hmem
  | cons x xs ih =>
    rw [List.nodup_cons] at hnd
    simp only [List.map_cons, bbInsert]
    by_cases hx : x = c.base
    · subst hx
      rw [if_pos rfl, if_pos hk, hf]
      dsimp only
      rw [if_pos rfl]
      refine congrArg Except.ok (congrArg (List.cons _) ?_)
      refine List.map_congr_left ?_
      intro b hb
      have hbne : b ≠ c.base := fun he => hnd.1 (he ▸ hb)
      rw [if_neg hbne]
    · have hmem2 : c.base ∈ xs := by
        rcases List.mem_cons.mp hmem with h | h
        · exact absurd h.symm hx
        · exact h
      rw [if_neg hx, ih hnd.2 hmem2]
      dsimp only
      rw [if_neg (Ne.symm (fun he => hx he.symm))]

theorem bbInsert_update_backup (bo : List String) (c : Candidate)
    (f g : String → Option Candidate) (hnd : bo.Nodup) (hmem : c.base ∈ bo)
    (hk : c.kind = "backup") (hg : g c.base = none) :
    bbInsert c (bo.map fun b => (b, (f b, g b))) =
      .ok (bo.map fun b => (b, (f b, (if b = c.base then some c else g b)))) := by
  have hk2 : ¬(c.kind = "main") := by
    rw [hk]
    decide
  induction bo with
  | nil => cases hmem
  | cons x xs ih =>
    rw [List.nodup_cons] at hnd
    simp only [List.map_cons, bbInsert]
    by_cases hx : x = c.base
    · subst hx
      rw [if_pos rfl, if_neg hk2, hg]
      dsimp only
      rw [if_pos rfl]
      refine congrArg Except.ok (congrArg (List.cons _) ?_)
      refine List.map_congr_left ?_
      intro b hb
      have hbne : b ≠ c.base := fun he => hnd.1 (he ▸ hb)
      rw [if_neg hbne]
    · have hmem2 : c.base ∈ xs := by
        rcases List.mem_cons.mp hmem with h | h
        · exact absurd h.symm hx
        · exact h
      rw [if_neg hx, ih hnd.2 hmem2]
      dsimp only
      rw [if_neg (Ne.symm (fun he => hx he.symm))]

theorem bbInsert_append_new (bo : List String) (c : Candidate)
    (f g : String → Option Candidate) (hmem : c.base ∉ bo) :
    bbInsert c (bo.map fun b => (b, (f b, g b))) =
      .ok ((bo.map fun b => (b, (f b, g b))) ++
        [(c.base, if c.kind = "main" then (some c, none) else (none, some c))]) := by
  induction bo with
  | nil => rfl
  | cons x xs ih =>
    simp only [List.map_cons, bbInsert]
    have hx : ¬(x = c.base) := fun he => hmem (he ▸ List.mem_cons_self x xs)
    have hmem2 : c.base ∉ xs := fun h => hmem (List.mem_cons_of_mem _ h)
    rw [if_neg hx, ih hmem2]
    dsimp only
    rw [List.cons_append]

/-- Under the no-duplicate hypothesis the grouping loop succeeds and
produces the canonical map. -/
theorem buildByBase_canonical (l : List Candidate) (hnd : TaggedNodup l) :
    buildByBase l [] = .ok (canonicalMap l) := by
  induction l using List.reverseRecOn with
  | nil => rfl
  | append_singleton l c ih =>
    obtain ⟨hndl, _, hsep⟩ := List.pairwise_append.mp hnd
    rw [buildByBase_append, ih hndl]
    dsimp only
    have hcanl : canonicalMap l =
        (baseOrder l []).map fun b => (b, (mainAt l b, backupAt l b)) := rfl
    by_cases ht : Tagged c
    · have ht' : c.kind = "main" ∨ c.kind = "backup" := ht
      simp only [buildByBase, if_pos ht']
      have hsepc : ∀ d ∈ l, Tagged d → ¬(d.base = c.base ∧ d.kind = c.kind) :=
        fun d hd htd => hsep d hd c (List.mem_singleton_self c) htd ht
      have hbonodup : (baseOrder l []).Nodup := baseOrder_nodup l [] List.nodup_nil
      rcases ht' with hk | hk
      · have hnomain : mainAt l c.base = none := by
          cases hfind : mainAt l c.base with
          | none => rfl
          | some d =>
            exfalso
            have hdmem : d ∈ l := List.mem_of_find?_eq_some hfind
            have hdp := List.find?_some hfind
            simp only [Bool.and_eq_true, beq_iff_eq] at hdp
            exact hsepc d hdmem (Or.inl hdp.1) ⟨hdp.2, hdp.1.trans hk.symm⟩
        by_cases hmem : c.base ∈ baseOrder l []
        · rw [hcanl, bbInsert_update_main (baseOrder l []) c (mainAt l) (backupAt l)
            hbonodup hmem hk hnomain]
          refine congrArg Except.ok ?_
          unfold canonicalMap
          rw [baseOrder_snoc_skip l c (Or.inr hmem)]
          refine (List.map_congr_left ?_).symm
          intro b hb
          rw [backupAt_snoc_other l c b (fun hc => by
            rw [hc.1] at hk
            exact absurd hk (by decide))]
          by_cases hbc : b = c.base
          · subst hbc
            rw [mainAt_snoc_self l c c.base hk rfl hnomain, if_pos rfl]
          · rw [mainAt_snoc_other l c b (fun hc => hbc hc.2.symm), if_neg hbc]
        · rw [hcanl, bbInsert_append_new (baseOrder l []) c (mainAt l) (backupAt l) hmem]
          refine congrArg Except.ok ?_
          unfold canonicalMap
          rw [baseOrder_snoc_new l c (Or.inl hk) hmem, List.map_append]
          refine congrArg₂ (· ++ ·) ?_ ?_
          · refine (List.map_congr_left ?_).symm
            intro b hb
            have hbc : ¬(c.base = b) := fun he => hmem (he ▸ hb)
            rw [mainAt_snoc_other l c b (fun hc => hbc hc.2),
              backupAt_snoc_other l c b (fun hc => hbc hc.2)]
          · simp only [List.map_singleton]
            rw [if_pos hk,
              mainAt_snoc_self l c c.base hk rfl
                (mainAt_none_of_notMem_baseOrder l c.base hmem),
              backupAt_snoc_other l c c.base (fun hc => by
                rw [hc.1] at hk
                exact absurd hk (by decide)),
              backupAt_none_of_notMem_baseOrder l c.base hmem]
      · have hnoback : backupAt l c.base = none := by
          cases hfind : backupAt l c.base with
          | none => rfl
          | some d =>
            exfalso
            have hdmem : d ∈ l := List.mem_of_find?_eq_some hfind
            have hdp := List.find?_some hfind
            simp only [Bool.and_eq_true, beq_iff_eq] at hdp
            exact hsepc d hdmem (Or.inr hdp.1) ⟨hdp.2, hdp.1.trans hk.symm⟩
        have hkm : ¬(c.kind = "main") := by
          rw [hk]
          decide
        by_cases hmem : c.base ∈ baseOrder l []
        · rw [hcanl, bbInsert_update_backup (baseOrder l []) c (mainAt l) (backupAt l)
            hbonodup hmem hk hnoback]
          refine congrArg Except.ok ?_
          unfold canonicalMap
          rw [baseOrder_snoc_skip l c (Or.inr hmem)]
          refine (List.map_congr_left ?_).symm
          intro b hb
          rw [mainAt_snoc_other l c b (fun hc => hkm hc.1)]
          by_cases hbc : b = c.base
          · subst hbc
            rw [backupAt_snoc_self l c c.base hk rfl hnoback, if_pos rfl]
          · rw [backupAt_snoc_other l c b (fun hc => hbc hc.2.symm), if_neg hbc]
        · rw [hcanl, bbInsert_append_new (baseOrder l []) c (mainAt l) (backupAt l) hmem]
          refine congrArg Except.ok ?_
          unfold canonicalMap
          rw [baseOrder_snoc_new l c (Or.inr hk) hmem, List.map_append]
          refine congrArg₂ (· ++ ·) ?_ ?_
          · refine (List.map_congr_left ?_).symm
            intro b hb
            have hbc : ¬(c.base = b) := fun he => hmem (he ▸ hb)
            rw [mainAt_snoc_other l c b (fun hc => hbc hc.2),
              backupAt_snoc_other l c b (fun hc => hbc hc.2)]
          · simp only [List.map_singleton]
            rw [if_neg hkm,
              backupAt_snoc_self l c c.base hk rfl
                (backupAt_none_of_notMem_baseOrder l c.base hmem),
              mainAt_snoc_other l c c.base (fun hc => hkm hc.1),
              mainAt_none_of_notMem_baseOrder l c.base hmem]
    · have ht2 : ¬(c.kind = "main" ∨ c.kind = "backup") := ht
      simp only [buildByBase, if_neg ht2]
      refine congrArg Except.ok ?_
      rw [hcanl]
      unfold canonicalMap
      rw [baseOrder_snoc_skip l c (Or.inl ht)]
      refine (List.map_congr_left ?_).symm
      intro b hb
      rw [mainAt_snoc_other l c b (fun hc => ht (Or.inl hc.1)),
        backupAt_snoc_other l c b (fun hc => ht (Or.inr hc.1))]

theorem mainAt_unique {l : List Candidate} {cm : Candidate} {B : String}
    (hnd : TaggedNodup l) (hm : cm ∈ l) (hmk : cm.kind = "main") (hmb : cm.base = B) :
    mainAt l B = some cm := by
  refine find?_eq_some_of_unique hm (by simp [hmk, hmb]) (hnd.imp ?_)
  intro a b hR ⟨hpa, hpb⟩
  simp only [Bool.and_eq_true, beq_iff_eq] at hpa hpb
  exact hR (Or.inl hpa.1) (Or.inl hpb.1) ⟨hpa.2.trans hpb.2.symm, hpa.1.trans hpb.1.symm⟩

theorem backupAt_unique {l : List Candidate} {cb : Candidate} {B : String}
    (hnd : TaggedNodup l) (hb : cb ∈ l) (hbk : cb.kind = "backup") (hbb : cb.base = B) :
    backupAt l B = some cb := by
  refine find?_eq_some_of_unique hb (by simp [hbk, hbb]) (hnd.imp ?_)
  intro a b hR ⟨hpa, hpb⟩
  simp only [Bool.and_eq_true, beq_iff_eq] at hpa hpb
  exact hR (Or.inr hpa.1) (Or.inr hpb.1) ⟨hpa.2.trans hpb.2.symm, hpa.1.trans hpb.1.symm⟩

theorem canonical_complete_bases (l : List Candidate) :
    ((canonicalMap l).filter fun e => e.2.1.isSome && e.2.2.isSome).map Prod.fst =
      (baseOrder l []).filter fun b => (mainAt l b).isSome && (backupAt l b).isSome := by
  unfold canonicalMap
  rw [List.filter_map, List.map_map]
  simp only [Function.comp_def]
  rw [List.map_id']

theorem canonical_main_bases (l : List Candidate) :
    ((canonicalMap l).filter fun e => e.2.1.isSome).map Prod.fst =
      (baseOrder l []).filter fun b => (mainAt l b).isSome := by
  unfold canonicalMap
  rw [List.filter_map, List.map_map]
  simp only [Function.comp_def]
  rw [List.map_id']

/-- Claim C1: on a discovery input whose candidates contain a
`main`-tagged candidate `cm` and a `backup`-tagged candidate `cb` of the
same base `B`, no auxiliary-tagged candidates and no duplicate tagged
`(base, kind)` pairs, and where `B` is lexicographically least among the
complete bases, `decide_roles` assigns exactly `cm` as main and `cb` as
backup, ignoring all plain candidates. -/
theorem C1_complete_base_selection
    (responders : List (String × List (String × JValue))) (cm cb : Candidate)
    (B : String)
    (hm : cm ∈ candidatesOf responders) (hmk : cm.kind = "main") (hmb : cm.base = B)
    (hb : cb ∈ candidatesOf responders) (hbk : cb.kind = "backup") (hbb : cb.base = B)
    (haux : ∀ c ∈ candidatesOf responders, c.kind ≠ "aux")
    (hnd : TaggedNodup (candidatesOf responders))
    (hmin : ∀ c ∈ candidatesOf responders,
      CompleteBase (candidatesOf responders) c.base → strLeRel B c.base) :
    decide_roles responders =
      .ok { main := some { ip := cm.ip, role := "main",
                           workspace_name := some cm.ws_name,
                           workspace_id := some cm.ws_id },
            backup := some { ip := cb.ip, role := "backup",
                             workspace_name := some cb.ws_name,
                             workspace_id := some cb.ws_id },
            aux := none } := by
  have hrne : responders ≠ [] := by
    intro h
    rw [h] at hm
    cases hm
  have hremp : responders.isEmpty = false := by
    cases responders
    · exact absurd rfl hrne
    · rfl
  have hcne : candidatesOf responders ≠ [] := List.ne_nil_of_mem hm
  have hcemp : (candidatesOf responders).isEmpty = false := by
    cases hcc : candidatesOf responders
    · exact absurd hcc hcne
    · rfl
  have hauxf : (candidatesOf responders).filter (fun c => c.kind = "aux") = [] := by
    rw [List.filter_eq_nil_iff]
    intro c hc
    simp [haux c hc]
  have hmainB : mainAt (candidatesOf responders) B = some cm :=
    mainAt_unique hnd hm hmk hmb
  have hbackB : backupAt (candidatesOf responders) B = some cb :=
    backupAt_unique hnd hb hbk hbb
  have hBbo : B ∈ baseOrder (candidatesOf responders) [] :=
    (mem_baseOrder _ [] B).mpr (Or.inr ⟨cm, hm, Or.inl hmk, hmb⟩)
  have hBcompl : B ∈ (baseOrder (candidatesOf responders) []).filter
      fun b => (mainAt (candidatesOf responders) b).isSome &&
        (backupAt (candidatesOf responders) b).isSome := by
    rw [List.mem_filter]
    exact ⟨hBbo, by simp [hmainB, hbackB]⟩
  have hminall : ∀ x ∈ (baseOrder (candidatesOf responders) []).filter
      (fun b => (mainAt (candidatesOf responders) b).isSome &&
        (backupAt (candidatesOf responders) b).isSome), strLeRel B x := by
    intro x hx
    rw [List.mem_filter] at hx
    obtain ⟨hxbo, hxq⟩ := hx
    rw [Bool.and_eq_true, Option.isSome_iff_exists, Option.isSome_iff_exists] at hxq
    obtain ⟨⟨d, hd⟩, ⟨e, he⟩⟩ := hxq
    have hdmem : d ∈ candidatesOf responders := List.mem_of_find?_eq_some hd
    have hdp := List.find?_some hd
    simp only [Bool.and_eq_true, beq_iff_eq] at hdp
    have hemem : e ∈ candidatesOf responders := List.mem_of_find?_eq_some he
    have hep := List.find?_some he
    simp only [Bool.and_eq_true, beq_iff_eq] at hep
    have := hmin d hdmem ⟨⟨d, hdmem, hdp.1, rfl⟩, ⟨e, hemem, hep.1, hep.2.trans hdp.2.symm⟩⟩
    rw [hdp.2] at this
    exact this
  have hhead : (((baseOrder (candidatesOf responders) []).filter
      fun b => (mainAt (candidatesOf responders) b).isSome &&
        (backupAt (candidatesOf responders) b).isSome).insertionSort
          strLeRel).head? = some B :=
    insertionSort_head_min _ B hBcompl hminall
  have hcompne : ((baseOrder (candidatesOf responders) []).filter
      fun b => (mainAt (candidatesOf responders) b).isSome &&
        (backupAt (candidatesOf responders) b).isSome) ≠ [] :=
    List.ne_nil_of_mem hBcompl
  have hcompemp : ((baseOrder (candidatesOf responders) []).filter
      fun b => (mainAt (candidatesOf responders) b).isSome &&
        (backupAt (candidatesOf responders) b).isSome).isEmpty = false := by
    cases hcc : (baseOrder (candidatesOf responders) []).filter
      fun b => (mainAt (candidatesOf responders) b).isSome &&
        (backupAt (candidatesOf responders) b).isSome
    · exact absurd hcc hcompne
    · rfl
  have hlook : (canonicalMap (candidatesOf responders)).lookup B =
      some (mainAt (candidatesOf responders) B, backupAt (candidatesOf responders) B) :=
    lookup_map_key _ _ B hBbo
  simp only [decide_roles, hremp, Bool.false_eq_true, if_false, hcemp, hauxf,
    List.length_nil, Nat.not_lt_zero, if_false, List.head?_nil, Option.map_none',
    buildByBase_canonical _ hnd, canonical_complete_bases, hcompemp, Bool.not_false,
    if_true, hhead, hlook, hmainB, hbackB, Option.map_some']

/-- Claim C2 counterexample: with an empty-string identifier on one of the
two same-name responders, `decide_roles` does not raise at all — it
returns an assignment, because the empty-identifier workspace is dropped
before grouping.  The two responders are at different addresses and both
advertise `show_main`, which classifies as `main`-tagged. -/
theorem C2_counterexample :
    decide_roles [("10.0.0.1", [("show_main", .str "")]),
                  ("10.0.0.2", [("show_main", .str "B")])] =
      .ok { main := some { ip := "10.0.0.2", role := "main",
                           workspace_name := some "show_main",
                           workspace_id := some "B" },
            backup := none, aux := none } := by
  rfl

/-- Claim C2 (amended): two responders at different addresses whose
workspace names classify to the same tagged kind (`main` or `backup`) with
the same base, each carrying a non-empty string identifier, make
`decide_roles` raise `ConflictError`. -/
theorem C2_duplicate_kind_conflict
    (responders : List (String × List (String × JValue)))
    (ip1 ip2 n1 n2 s1 s2 : String) (ws1 ws2 : List (String × JValue))
    (h1 : (ip1, ws1) ∈ responders) (h2 : (ip2, ws2) ∈ responders)
    (hn1 : (n1, JValue.str s1) ∈ ws1) (hn2 : (n2, JValue.str s2) ∈ ws2)
    (hs1 : s1 ≠ "") (hs2 : s2 ≠ "") (hip : ip1 ≠ ip2)
    (htag : (classify n1).1 = "main" ∨ (classify n1).1 = "backup")
    (hkind : (classify n1).1 = (classify n2).1)
    (hbase : (classify n1).2 = (classify n2).2) :
    decide_roles responders = .error .conflict := by
  have hc1 : (⟨ip1, n1, s1, (classify n1).1, (classify n1).2⟩ : Candidate) ∈
      candidatesOf responders := mem_candidatesOf h1 hn1 hs1
  have hc2 : (⟨ip2, n2, s2, (classify n2).1, (classify n2).2⟩ : Candidate) ∈
      candidatesOf responders := mem_candidatesOf h2 hn2 hs2
  have hne : (⟨ip1, n1, s1, (classify n1).1, (classify n1).2⟩ : Candidate) ≠
      ⟨ip2, n2, s2, (classify n2).1, (classify n2).2⟩ := by
    intro he
    exact hip (congrArg Candidate.ip he)
  have hbuild : buildByBase (candidatesOf responders) [] = .error .conflict := by
    rcases mem_mem_split hc1 hc2 hne with ⟨l1, l2, l3, hsplit⟩ | ⟨l1, l2, l3, hsplit⟩
    · rw [hsplit]
      exact buildByBase_dup_conflict htag hbase hkind
    · rw [hsplit]
      refine buildByBase_dup_conflict ?_ hbase.symm hkind.symm
      show (classify n2).1 = "main" ∨ (classify n2).1 = "backup"
      rw [← hkind]
      exact htag
  have hrne : responders ≠ [] := by
    intro h
    rw [h] at h1
    cases h1
  have hremp : responders.isEmpty = false := by
    cases responders
    · exact absurd rfl hrne
    · rfl
  have hcemp : (candidatesOf responders).isEmpty = false := by
    cases hcc : candidatesOf responders
    · rw [hcc] at hc1
      cases hc1
    · rfl
  by_cases hauxlen :
      1 < ((candidatesOf responders).filter fun c => c.kind = "aux").length
  · simp only [decide_roles, hremp, Bool.false_eq_true, if_false, hcemp,
      if_pos hauxlen]
  · simp only [decide_roles, hremp, Bool.false_eq_true, if_false, hcemp,
      if_neg hauxlen, hbuild]

theorem taggedNodup_of_all_plain {l : List Candidate}
    (h : ∀ c ∈ l, c.kind = "plain") : TaggedNodup l := by
  induction l with
  | nil => exact List.Pairwise.nil
  | cons c rest ih =>
    refine List.Pairwise.cons ?_ (ih fun d hd => h d (List.mem_cons_of_mem _ hd))
    intro d _ htc _ _
    have := h c (List.mem_cons_self _ _)
    rcases htc with hk | hk <;> rw [this] at hk <;> exact absurd hk (by decide)

theorem baseOrder_all_plain {l : List Candidate}
    (h : ∀ c ∈ l, c.kind = "plain") : ∀ acc, baseOrder l acc = acc := by
  induction l with
  | nil => intro acc; rfl
  | cons c rest ih =>
    intro acc
    have hck := h c (List.mem_cons_self _ _)
    have hnt : ¬ Tagged c := by
      rintro (hk | hk) <;> rw [hck] at hk <;> exact absurd hk (by decide)
    simp only [baseOrder, decide_eq_false hnt, Bool.false_and, Bool.false_eq_true,
      if_false]
    exact ih (fun d hd => h d (List.mem_cons_of_mem _ hd)) acc

/-- Claim C3: on a discovery input whose candidates are all plain,
`decide_roles` raises `NoRespondersError` for zero candidates, assigns the
single plain candidate as main (with no backup and no auxiliary) for
exactly one, and raises `ConflictError` for more than one. -/
theorem C3_plain_only (responders : List (String × List (String × JValue)))
    (hplain : ∀ c ∈ candidatesOf responders, c.kind = "plain") :
    (candidatesOf responders = [] →
      decide_roles responders = .error .noResponders) ∧
    (∀ p, candidatesOf responders = [p] →
      decide_roles responders =
        .ok { main := some { ip := p.ip, role := "main",
                             workspace_name := some p.ws_name,
                             workspace_id := some p.ws_id },
              backup := none, aux := none }) ∧
    (2 ≤ (candidatesOf responders).length →
      decide_roles responders = .error .conflict) := by
  have hcanon : buildByBase (candidatesOf responders) [] =
      .ok (canonicalMap (candidatesOf responders)) :=
    buildByBase_canonical _ (taggedNodup_of_all_plain hplain)
  have hbo : baseOrder (candidatesOf responders) [] = [] :=
    baseOrder_all_plain hplain []
  have hcm : canonicalMap (candidatesOf responders) = [] := by
    unfold canonicalMap
    rw [hbo]
    rfl
  rw [hcm] at hcanon
  have hfilter : (candidatesOf responders).filter (fun c => c.kind = "plain") =
      candidatesOf responders := by
    rw [List.filter_eq_self]
    intro c hc
    simp [hplain c hc]
  have hauxf : (candidatesOf responders).filter (fun c => c.kind = "aux") = [] := by
    rw [List.filter_eq_nil_iff]
    intro c hc
    simp [hplain c hc]
  refine ⟨?_, ?_, ?_⟩
  · intro hc
    cases hresp : responders with
    | nil => rfl
    | cons r rs =>
      have hremp : responders.isEmpty = false := by rw [hresp]; rfl
      rw [← hresp]
      simp only [decide_roles, hremp, Bool.false_eq_true, if_false, hc,
        List.isEmpty_nil, if_true]
  · intro p hp
    have hrne : responders ≠ [] := by
      intro h
      rw [h] at hp
      cases hp
    have hremp : responders.isEmpty = false := by
      cases responders
      · exact absurd rfl hrne
      · rfl
    have hcemp : (candidatesOf responders).isEmpty = false := by
      rw [hp]
      rfl
    simp only [decide_roles, hremp, Bool.false_eq_true, if_false, hcemp, hauxf,
      List.length_nil, Nat.not_lt_zero, if_false, List.head?_nil, Option.map_none',
      hcanon, List.filter_nil, List.map_nil, List.isEmpty_nil, Bool.not_true,
      Bool.true_eq_false, hfilter]
    rw [hp]
  · intro hlen
    have hrne : responders ≠ [] := by
      intro h
      rw [h] at hlen
      exact absurd hlen (by decide)
    have hremp : responders.isEmpty = false := by
      cases responders
      · exact absurd rfl hrne
      · rfl
    obtain ⟨x, y, zs, hxyz⟩ : ∃ x y zs, candidatesOf responders = x :: y :: zs := by
      cases hc1 : candidatesOf responders with
      | nil => rw [hc1] at hlen; simp at hlen
      | cons x t =>
        cases ht : t with
        | nil =>
          rw [hc1, ht] at hlen
          simp only [List.length_cons, List.length_nil] at hlen
          omega
        | cons y zs =>
          exact ⟨x, y, zs, rfl⟩
    have hcemp : (candidatesOf responders).isEmpty = false := by
      rw [hxyz]
      rfl
    simp only [decide_roles, hremp, Bool.false_eq_true, if_false, hcemp, hauxf,
      List.length_nil, Nat.not_lt_zero, if_false, List.head?_nil, Option.map_none',
      hcanon, List.filter_nil, List.map_nil, List.isEmpty_nil, Bool.not_true,
      Bool.true_eq_false, hfilter]
    rw [hxyz]

theorem filterMap_valid_filter {β : Type}
    (F : String × JValue → Option β)
    (hF : ∀ q, validId q.2 = false → F q = none) :
    ∀ ws : List (String × JValue),
      (ws.filter fun q => validId q.2).filterMap F = ws.filterMap F := by
  intro ws
  induction ws with
  | nil => rfl
  | cons q t ih =>
    cases hv : validId q.2 with
    | true => simp only [List.filter_cons, hv, if_true, List.filterMap_cons, ih]
    | false =>
      simp only [List.filter_cons, hv, Bool.false_eq_true, if_false,
        List.filterMap_cons, hF q hv, ih]

theorem candidatesOf_filter_valid
    (responders : List (String × List (String × JValue))) :
    candidatesOf (responders.map fun p => (p.1, p.2.filter fun q => validId q.2)) =
      candidatesOf responders := by
  induction responders with
  | nil => rfl
  | cons r rs ih =>
    simp only [List.map_cons, candidatesOf, List.flatMap_cons] at ih ⊢
    rw [ih]
    refine congrArg₂ (· ++ ·) ?_ rfl
    refine filterMap_valid_filter _ ?_ r.2
    intro q hq
    cases hv : q.2 with
    | str s =>
      have hse : s.isEmpty = true := by
        cases hb : s.isEmpty
        · rw [hv] at hq
          simp [validId, hb] at hq
        · rfl
      simp [hse]
    | num x => rfl
    | bool b => rfl
    | null => rfl
    | arr xs => rfl
    | obj fs => rfl

/-- Claim C10: `decide_roles` ignores every discovered workspace whose
identifier is not a non-empty string, and a non-empty responder list in
which every workspace is so ignored raises `NoRespondersError` (never
`ConflictError`). -/
theorem C10_invalid_identifiers
    (responders : List (String × List (String × JValue))) :
    decide_roles responders =
      decide_roles (responders.map fun p => (p.1, p.2.filter fun q => validId q.2)) ∧
    (responders ≠ [] →
      (∀ p ∈ responders, ∀ q ∈ p.2, validId q.2 = false) →
      decide_roles responders = .error .noResponders) := by
  constructor
  · have hie : (responders.map fun p =>
        (p.1, p.2.filter fun q => validId q.2)).isEmpty = responders.isEmpty := by
      cases responders <;> rfl
    simp only [decide_roles, hie, candidatesOf_filter_valid]
  · intro hrne hinv
    have hremp : responders.isEmpty = false := by
      cases responders
      · exact absurd rfl hrne
      · rfl
    have hcands : candidatesOf responders = [] := by
      unfold candidatesOf
      rw [List.flatMap_eq_nil_iff]
      intro p hp
      rw [List.filterMap_eq_nil_iff]
      intro q hq
      have hqv := hinv p hp q hq
      cases hv : q.2 with
      | str s =>
        have hse : s.isEmpty = true := by
          cases hb : s.isEmpty
          · rw [hv] at hqv
            simp [validId, hb] at hqv
          · rfl
        simp [hse]
      | num x => rfl
      | bool b => rfl
      | null => rfl
      | arr xs => rfl
      | obj fs => rfl
    simp only [decide_roles, hremp, Bool.false_eq_true, if_false, hcands,
      List.isEmpty_nil, if_true]

/-! ## `parse_workspaces` (claim C6) -/

theorem wsEntry_fold_eq (out : List (String × String)) (it : JValue) :
    (match wsEntry it with
     | some kv => dictInsert out kv.1 kv.2
     | none => out) =
    (match it with
     | .obj f =>
       match pyOr (pyOr (f.lookup "displayName") (f.lookup "name")) (f.lookup "fileName"),
             pyOr (pyOr (f.lookup "uniqueID") (f.lookup "id")) (f.lookup "workspace_id") with
       | some (.str n), some (.str u) => dictInsert out (removeFormatOccurrences n) u
       | _, _ => out
     | _ => out) := by
  cases it with
  | obj f =>
    unfold wsEntry
    dsimp only
    cases pyOr (pyOr (f.lookup "displayName") (f.lookup "name")) (f.lookup "fileName") with
    | none => rfl
    | some v1 =>
      cases v1 with
      | str n =>
        cases pyOr (pyOr (f.lookup "uniqueID") (f.lookup "id")) (f.lookup "workspace_id") with
        | none => rfl
        | some v2 => cases v2 <;> rfl
      | num q =>
        cases pyOr (pyOr (f.lookup "uniqueID") (f.lookup "id")) (f.lookup "workspace_id") with
        | none => rfl
        | some v2 => cases v2 <;> rfl
      | bool b =>
        cases pyOr (pyOr (f.lookup "uniqueID") (f.lookup "id")) (f.lookup "workspace_id") with
        | none => rfl
        | some v2 => cases v2 <;> rfl
      | null =>
        cases pyOr (pyOr (f.lookup "uniqueID") (f.lookup "id")) (f.lookup "workspace_id") with
        | none => rfl
        | some v2 => cases v2 <;> rfl
      | arr xs =>
        cases pyOr (pyOr (f.lookup "uniqueID") (f.lookup "id")) (f.lookup "workspace_id") with
        | none => rfl
        | some v2 => cases v2 <;> rfl
      | obj fs =>
        cases pyOr (pyOr (f.lookup "uniqueID") (f.lookup "id")) (f.lookup "workspace_id") with
        | none => rfl
        | some v2 => cases v2 <;> rfl
  | str s => rfl
  | num q => rfl
  | bool b => rfl
  | null => rfl
  | arr xs => rfl

/-- Claim C6 counterexample: the code removes the file-format suffix
everywhere in the name, not only at its end.  On the name `a.qlab5b` the
code produces key `ab` while the claimed end-stripping produces
`a.qlab5b`. -/
theorem C6_counterexample :
    parse_workspaces
        (.obj [("status", .str "ok"),
               ("data", .arr [.obj [("displayName", .str "a.qlab5b"),
                                    ("uniqueID", .str "U")]])]) =
      [("ab", "U")] ∧
    parse_workspaces_keyed stripFormatSuffix
        (.obj [("status", .str "ok"),
               ("data", .arr [.obj [("displayName", .str "a.qlab5b"),
                                    ("uniqueID", .str "U")]])]) =
      [("a.qlab5b", "U")] ∧
    parse_workspaces
        (.obj [("status", .str "ok"),
               ("data", .arr [.obj [("displayName", .str "a.qlab5b"),
                                    ("uniqueID", .str "U")]])]) ≠
      parse_workspaces_keyed stripFormatSuffix
        (.obj [("status", .str "ok"),
               ("data", .arr [.obj [("displayName", .str "a.qlab5b"),
                                    ("uniqueID", .str "U")]])]) := by
  refine ⟨rfl, rfl, ?_⟩
  decide

/-- Claim C6 (amended): `parse_workspaces` builds the mapping exactly as
the claim describes — name from `displayName`/`name`/`fileName`,
identifier from `uniqueID`/`id`/`workspace_id`, non-string entries
skipped, non-`ok` or non-list envelopes yielding the empty mapping — with
the key being the name after removing every occurrence of `.qlab5` and
then every occurrence of `.qlab4` (not only a trailing one). -/
theorem C6_amended_parse_workspaces (reply : JValue) :
    parse_workspaces reply = parse_workspaces_keyed removeFormatOccurrences reply := by
  cases reply with
  | obj fields =>
    unfold parse_workspaces parse_workspaces_keyed
    dsimp only
    by_cases hok : (!(isStrVal (fields.lookup "status") "ok")) = true
    · rw [if_pos hok, if_pos hok]
    · rw [if_neg hok, if_neg hok]
      cases fields.lookup "data" with
      | none => rfl
      | some v =>
        cases v with
        | arr data =>
          dsimp only
          exact List.foldl_ext _ _ _ (fun acc it _ => wsEntry_fold_eq acc it)
        | str s => rfl
        | num q => rfl
        | bool b => rfl
        | null => rfl
        | obj fs => rfl
  | str s => rfl
  | num q => rfl
  | bool b => rfl
  | null => rfl
  | arr xs => rfl

/-! ## The inbound dispatcher (claim C5) -/

theorem endsWithB_thump_not_connect (s : String)
    (h : endsWithB s "/thump" = true) : endsWithB s "/connect" = false := by
  cases hc : endsWithB s "/connect" with
  | false => rfl
  | true =>
    exfalso
    unfold endsWithB at h hc
    rw [List.isSuffixOf_iff_suffix] at h hc
    rcases List.suffix_or_suffix_of_suffix h hc with hsuf | hsuf
    · rw [← List.isSuffixOf_iff_suffix] at hsuf
      exact absurd hsuf (by decide)
    · rw [← List.isSuffixOf_iff_suffix] at hsuf
      exact absurd hsuf (by decide)

/-- Claim C5 counterexample: a reply whose inner address ends with
`/thump` and whose status is `ok`, but which carries no `workspace_id`
field, is not marked last-seen — the dispatcher's third rule additionally
requires a non-empty string `workspace_id`. -/
theorem C5_counterexample :
    (match ([("address", JValue.str "/workspace/W/thump"),
             ("status", JValue.str "ok")].lookup "address").getD (.str "") with
      | .str s => endsWithB s "/thump"
      | _ => false) = true ∧
    isStrVal ([("address", JValue.str "/workspace/W/thump"),
               ("status", JValue.str "ok")].lookup "status") "ok" = true ∧
    (osc_handler "/reply/workspace/W/thump"
        [("address", JValue.str "/workspace/W/thump"),
         ("status", JValue.str "ok")] true).markSeen = false := by
  refine ⟨rfl, rfl, rfl⟩

/-- Claim C5 (amended): for an inbound reply object delivered under an
envelope address that does not start with `/reply/workspaces`, whose inner
address ends with `/thump`, whose status is `ok`, and whose
`workspace_id` is a non-empty string, the dispatcher marks the source
address last-seen. -/
theorem C5_amended_thump_marks_seen (address : String)
    (j : List (String × JValue)) (roleKnown : Bool) (inv w : String)
    (hra : startsWithB address "/reply/workspaces" = false)
    (hinv : (j.lookup "address").getD (.str "") = .str inv)
    (hth : endsWithB inv "/thump" = true)
    (hst : j.lookup "status" = some (.str "ok"))
    (hws : j.lookup "workspace_id" = some (.str w))
    (hwne : w ≠ "") :
    (osc_handler address j roleKnown).markSeen = true := by
  have hnw : inv ≠ "/workspaces" := by
    intro he
    rw [he] at hth
    exact absurd hth (by decide)
  have hwe : w.isEmpty = false := by
    cases he : w.isEmpty
    · rfl
    · exact absurd ((String.isEmpty_iff _).mp he) hwne
  simp [osc_handler, hinv, hra, hst, hws, hth, hwe, isStrVal, optValidId, validId,
    endsWithB_thump_not_connect inv hth, hnw]

/-! ## Heartbeat throttle (claim C7) -/

theorem runThumps_future (calls : List (Endpoint × ℚ)) :
    ∀ (st : ThumpState) (k : String) (t : ℚ),
      (k, t) ∈ (runThumps calls st).2 → st.lastThump k + HEARTBEAT_INTERVAL ≤ t := by
  induction calls with
  | nil =>
    intro st k t h
    cases h
  | cons c rest ih =>
    intro st k t hmem
    simp only [runThumps] at hmem
    rw [List.mem_append] at hmem
    cases hws : c.1.workspace_id with
    | none =>
      simp only [thump_fire, hws, Option.toList_none, List.not_mem_nil,
        false_or] at hmem
      exact ih st k t hmem
    | some w =>
      cases hwe : w.isEmpty with
      | true =>
        simp only [thump_fire, hws, hwe, if_true, Option.toList_none,
          List.not_mem_nil, false_or] at hmem
        exact ih st k t hmem
      | false =>
        by_cases hgate : c.2 - st.lastThump (c.1.ip ++ ":" ++ w) < HEARTBEAT_INTERVAL
        · simp only [thump_fire, hws, hwe, Bool.false_eq_true, if_false,
            if_pos hgate, Option.toList_none, List.not_mem_nil, false_or] at hmem
          exact ih st k t hmem
        · simp only [thump_fire, hws, hwe, Bool.false_eq_true, if_false,
            if_neg hgate, Option.toList_some, List.mem_singleton] at hmem
          rcases hmem with hhead | hrest
          · cases hhead
            have := not_lt.mp hgate
            linarith
          · have hfut := ih _ k t hrest
            dsimp only at hfut
            by_cases hk : k = c.1.ip ++ ":" ++ w
            · subst hk
              rw [Function.update_same] at hfut
              have h2 := not_lt.mp hgate
              have : (0 : ℚ) ≤ HEARTBEAT_INTERVAL := by norm_num [HEARTBEAT_INTERVAL]
              linarith
            · rw [Function.update_noteq hk] at hfut
              exact hfut

/-- Claim C7: across any sequence of `thump_fire` calls, at most one
`/workspace/<wsid>/thump` is enqueued per `HEARTBEAT_INTERVAL` (2 s) for
each `(ip, wsid)` pair: any later thump for the same key is at least 2
seconds after any earlier one. -/
theorem C7_thump_rate_limit (calls : List (Endpoint × ℚ)) (st : ThumpState) :
    (runThumps calls st).2.Pairwise
      fun a b => a.1 = b.1 → a.2 + HEARTBEAT_INTERVAL ≤ b.2 := by
  induction calls generalizing st with
  | nil => exact List.Pairwise.nil
  | cons c rest ih =>
    simp only [runThumps]
    cases hws : c.1.workspace_id with
    | none =>
      simp only [thump_fire, hws, Option.toList_none, List.nil_append]
      exact ih st
    | some w =>
      cases hwe : w.isEmpty with
      | true =>
        simp only [thump_fire, hws, hwe, if_true, Option.toList_none,
          List.nil_append]
        exact ih st
      | false =>
        by_cases hgate : c.2 - st.lastThump (c.1.ip ++ ":" ++ w) < HEARTBEAT_INTERVAL
        · simp only [thump_fire, hws, hwe, Bool.false_eq_true, if_false,
            if_pos hgate, Option.toList_none, List.nil_append]
          exact ih st
        · simp only [thump_fire, hws, hwe, Bool.false_eq_true, if_false,
            if_neg hgate, Option.toList_some, List.singleton_append]
          refine List.Pairwise.cons ?_ (ih _)
          intro b hb heq
          have hfut := runThumps_future rest _ b.1 b.2 hb
          dsimp only at hfut ⊢
          rw [← heq, Function.update_same] at hfut
          exact hfut

/-! ## Reconcile gating and backoff (claims C8 and C4) -/

theorem reset_lastReconcile (g : GateState) (role : Role) :
    (reset_offline_backoff g role).lastReconcile = g.lastReconcile := rfl

theorem bump_lastReconcile (g : GateState) (role : Role) (now : ℚ) :
    (bump_offline_backoff g role now).lastReconcile = g.lastReconcile := rfl

/-- When a gate blocks the call, `reconcile_endpoint` returns everything
unchanged. -/
theorem reconcile_endpoint_blocked (role : Role) (ep : Endpoint) (now : ℚ)
    (g : GateState) (st : PState) (reply : Option (List (String × JValue)))
    (h : reconcile_gates_pass g role now = false) :
    reconcile_endpoint role ep now g st reply = ⟨false, ep, g, st⟩ := by
  unfold reconcile_gates_pass at h
  rw [Bool.and_eq_false_iff] at h
  unfold reconcile_endpoint
  rcases h with h | h
  · rw [h]
    rfl
  · rw [Bool.not_eq_false', decide_eq_true_eq] at h
    have hog : (!(offline_gate g role now)) = true ∨
        (!(offline_gate g role now)) = false := by
      cases offline_gate g role now <;> simp
    rcases hog with hog | hog
    · rw [hog]
      rfl
    · rw [hog]
      simp only [Bool.false_eq_true, if_false, if_pos h]

/-- The gate state after a reconcile call that performs its work: the
backoff is reset on success and bumped on failure, in both cases after
`_last_reconcile[role] = now`. -/
theorem reconcile_endpoint_gates (role : Role) (ep : Endpoint) (now : ℚ)
    (g : GateState) (st : PState) (reply : Option (List (String × JValue)))
    (h : reconcile_gates_pass g role now = true) :
    (reconcile_endpoint role ep now g st reply).gates =
      if reconcile_ok ep reply = true then
        reset_offline_backoff (updLastReconcile g role now) role
      else bump_offline_backoff (updLastReconcile g role now) role now := by
  unfold reconcile_gates_pass at h
  rw [Bool.and_eq_true] at h
  obtain ⟨hog, hthr⟩ := h
  rw [Bool.not_eq_true', decide_eq_false_iff_not] at hthr
  unfold reconcile_endpoint reconcile_ok
  rw [hog]
  simp only [Bool.not_true, Bool.false_eq_true, if_false, if_neg hthr]
  cases reply with
  | none => rfl
  | some fields =>
    cases hfe : fields.isEmpty with
    | true => simp [hfe]
    | false =>
      simp only [hfe, Bool.false_eq_true, if_false]
      cases hwm : (parse_workspaces (.obj fields)).isEmpty with
      | true => simp [hwm]
      | false =>
        simp only [hwm, Bool.false_eq_true, if_false]
        cases hwn : ep.workspace_name with
        | none => rfl
        | some desired =>
          cases hde : desired.isEmpty with
          | true => simp [hde]
          | false =>
            simp only [hde, Bool.false_eq_true, if_false]
            cases hlk : (parse_workspaces (.obj fields)).lookup desired with
            | none => rfl
            | some new_id =>
              cases hni : new_id.isEmpty with
              | true => simp [hni]
              | false =>
                simp only [hni, Bool.not_false, if_true]
                by_cases hch : some new_id ≠ ep.workspace_id
                · simp [hch]
                · simp [hch]

theorem runReconciles_future
    (calls : List (Role × Endpoint × ℚ × Option (List (String × JValue)))) :
    ∀ (g : GateState) (st : PState) (role : Role) (t : ℚ),
      (role, t) ∈ (runReconciles calls g st).2.2 →
        g.lastReconcile role + RECONCILE_EVERY ≤ t := by
  induction calls with
  | nil =>
    intro g st role t h
    cases h
  | cons c rest ih =>
    intro g st role t hmem
    simp only [runReconciles] at hmem
    rw [List.mem_append] at hmem
    cases hpass : reconcile_gates_pass g c.1 c.2.2.1 with
    | false =>
      simp only [hpass, Bool.false_eq_true, if_false, List.not_mem_nil,
        false_or] at hmem
      rw [reconcile_endpoint_blocked c.1 c.2.1 c.2.2.1 g st c.2.2.2 hpass] at hmem
      exact ih g st role t hmem
    | true =>
      have hthr : ¬(c.2.2.1 - g.lastReconcile c.1 < RECONCILE_EVERY) := by
        unfold reconcile_gates_pass at hpass
        rw [Bool.and_eq_true] at hpass
        rw [Bool.not_eq_true', decide_eq_false_iff_not] at hpass
        exact hpass.2
      simp only [hpass, if_true, List.mem_singleton] at hmem
      rcases hmem with hhead | hrest
      · cases hhead
        have := not_lt.mp hthr
        linarith
      · have hfut := ih _ _ role t hrest
        rw [reconcile_endpoint_gates c.1 c.2.1 c.2.2.1 g st c.2.2.2 hpass] at hfut
        by_cases hok : reconcile_ok c.2.1 c.2.2.2 = true
        · rw [if_pos hok, reset_lastReconcile] at hfut
          unfold updLastReconcile at hfut
          dsimp only at hfut
          by_cases hrole : role = c.1
          · subst hrole
            rw [Function.update_same] at hfut
            have h2 := not_lt.mp hthr
            have : (0 : ℚ) ≤ RECONCILE_EVERY := by norm_num [RECONCILE_EVERY]
            linarith
          · rw [Function.update_noteq hrole] at hfut
            exact hfut
        · rw [if_neg hok, bump_lastReconcile] at hfut
          unfold updLastReconcile at hfut
          dsimp only at hfut
          by_cases hrole : role = c.1
          · subst hrole
            rw [Function.update_same] at hfut
            have h2 := not_lt.mp hthr
            have : (0 : ℚ) ≤ RECONCILE_EVERY := by norm_num [RECONCILE_EVERY]
            linarith
          · rw [Function.update_noteq hrole] at hfut
            exact hfut

theorem runReconciles_pairwise
    (calls : List (Role × Endpoint × ℚ × Option (List (String × JValue)))) :
    ∀ (g : GateState) (st : PState),
      (runReconciles calls g st).2.2.Pairwise
        fun a b => a.1 = b.1 → a.2 + RECONCILE_EVERY ≤ b.2 := by
  induction calls with
  | nil =>
    intro g st
    exact List.Pairwise.nil
  | cons c rest ih =>
    intro g st
    simp only [runReconciles]
    cases hpass : reconcile_gates_pass g c.1 c.2.2.1 with
    | false =>
      simp only [hpass, Bool.false_eq_true, if_false, List.nil_append]
      exact ih _ _
    | true =>
      simp only [hpass, if_true, List.singleton_append]
      refine List.Pairwise.cons ?_ (ih _ _)
      intro b hb heq
      have hfut := runReconciles_future rest _ _ b.1 b.2 hb
      rw [reconcile_endpoint_gates c.1 c.2.1 c.2.2.1 g st c.2.2.2 hpass] at hfut
      dsimp only at heq ⊢
      rw [← heq] at hfut
      by_cases hok : reconcile_ok c.2.1 c.2.2.2 = true
      · rw [if_pos hok, reset_lastReconcile] at hfut
        unfold updLastReconcile at hfut
        dsimp only at hfut
        rw [Function.update_same] at hfut
        exact hfut
      · rw [if_neg hok, bump_lastReconcile] at hfut
        unfold updLastReconcile at hfut
        dsimp only at hfut
        rw [Function.update_same] at hfut
        exact hfut

theorem reconcile_gates_pass_iff (g : GateState) (role : Role) (now : ℚ) :
    reconcile_gates_pass g role now = true ↔
      g.offlineNextTry role ≤ now ∧
        ¬(now - g.lastReconcile role < RECONCILE_EVERY) := by
  unfold reconcile_gates_pass offline_gate
  simp [Bool.and_eq_true, decide_eq_true_eq]

/-- Claim C8: `reconcile_endpoint` performs its work at most once per
`RECONCILE_EVERY` (5 s) per role; the offline backoff becomes
`OFFLINE_BACKOFF_MIN` (2 s) on a failure from zero, is multiplied by
`OFFLINE_BACKOFF_FACTOR` (2) capped at `OFFLINE_BACKOFF_MAX` (20 s) on
each further failure, gates the next attempt to `now + backoff`, and
resets to zero on success. -/
theorem C8_reconcile_throttle_and_backoff :
    (∀ (calls : List (Role × Endpoint × ℚ × Option (List (String × JValue))))
        (g : GateState) (st : PState),
      (runReconciles calls g st).2.2.Pairwise
        fun a b => a.1 = b.1 → a.2 + RECONCILE_EVERY ≤ b.2) ∧
    (∀ (g : GateState) (role : Role) (now : ℚ),
      (g.offlineBackoff role ≤ 0 →
        (bump_offline_backoff g role now).offlineBackoff role = OFFLINE_BACKOFF_MIN) ∧
      (0 < g.offlineBackoff role →
        (bump_offline_backoff g role now).offlineBackoff role =
          min OFFLINE_BACKOFF_MAX (g.offlineBackoff role * OFFLINE_BACKOFF_FACTOR)) ∧
      (bump_offline_backoff g role now).offlineNextTry role =
        now + (bump_offline_backoff g role now).offlineBackoff role) ∧
    (∀ (g : GateState) (role : Role),
      (reset_offline_backoff g role).offlineBackoff role = 0 ∧
      (reset_offline_backoff g role).offlineNextTry role = 0) ∧
    (∀ (role : Role) (ep : Endpoint) (now : ℚ) (g : GateState) (st : PState)
        (reply : Option (List (String × JValue))),
      (reconcile_gates_pass g role now = true →
        g.offlineNextTry role ≤ now ∧
        (reconcile_endpoint role ep now g st reply).gates =
          (if reconcile_ok ep reply = true then
            reset_offline_backoff (updLastReconcile g role now) role
          else bump_offline_backoff (updLastReconcile g role now) role now)) ∧
      (reconcile_gates_pass g role now = false →
        reconcile_endpoint role ep now g st reply = ⟨false, ep, g, st⟩)) := by
  refine ⟨fun calls g st => runReconciles_pairwise calls g st, ?_, ?_, ?_⟩
  · intro g role now
    refine ⟨?_, ?_, ?_⟩
    · intro h
      unfold bump_offline_backoff
      dsimp only
      rw [Function.update_same, if_pos h]
    · intro h
      unfold bump_offline_backoff
      dsimp only
      rw [Function.update_same, if_neg (not_le.mpr h)]
    · unfold bump_offline_backoff
      dsimp only
      rw [Function.update_same, Function.update_same]
  · intro g role
    constructor
    · unfold reset_offline_backoff
      dsimp only
      rw [Function.update_same]
    · unfold reset_offline_backoff
      dsimp only
      rw [Function.update_same]
  · intro role ep now g st reply
    constructor
    · intro h
      refine ⟨?_, reconcile_endpoint_gates role ep now g st reply h⟩
      unfold reconcile_gates_pass offline_gate at h
      rw [Bool.and_eq_true] at h
      exact of_decide_eq_true h.1
    · exact reconcile_endpoint_blocked role ep now g st reply

/-- Claim C4: when a reconcile call finds the endpoint's unchanged
workspace name listed under a new non-empty identifier, it reports a
change, updates the in-memory endpoint, and the persisted record
afterwards holds the new identifier and the unchanged name for that role
while every other field — the other roles' entries, the role entry's
address, the paired flag, the timestamps, the ports, the expected names
and suffixes, and the paused flag — is unchanged. -/
theorem C4_reconcile_persists_new_id
    (role : Role) (ep : Endpoint) (now : ℚ) (g : GateState) (st : PState)
    (fields : List (String × JValue)) (n newId : String)
    (hgate : g.offlineNextTry role ≤ now)
    (hthr : RECONCILE_EVERY ≤ now - g.lastReconcile role)
    (hfne : fields ≠ [])
    (hname : ep.workspace_name = some n) (hnne : n ≠ "")
    (hlook : (parse_workspaces (.obj fields)).lookup n = some newId)
    (hidne : newId ≠ "")
    (hchanged : some newId ≠ ep.workspace_id) :
    (reconcile_endpoint role ep now g st (some fields)).changed = true ∧
    (reconcile_endpoint role ep now g st (some fields)).ep =
      { ep with workspace_id := some newId } ∧
    (reconcile_endpoint role ep now g st (some fields)).st.endpoints role =
      some { (st.endpoints role).getD {} with
             workspace_id := some newId, workspace_name := some n } ∧
    (∀ r2, r2 ≠ role →
      (reconcile_endpoint role ep now g st (some fields)).st.endpoints r2 =
        st.endpoints r2) ∧
    ((reconcile_endpoint role ep now g st (some fields)).st.endpoints role).map
        RoleRec.ip = some ((st.endpoints role).getD {}).ip ∧
    (reconcile_endpoint role ep now g st (some fields)).st.paired = st.paired ∧
    (reconcile_endpoint role ep now g st (some fields)).st.paired_at = st.paired_at ∧
    (reconcile_endpoint role ep now g st (some fields)).st.qlab_port = st.qlab_port ∧
    (reconcile_endpoint role ep now g st (some fields)).st.pi_reply_port =
      st.pi_reply_port ∧
    (reconcile_endpoint role ep now g st (some fields)).st.expected_ws_main =
      st.expected_ws_main ∧
    (reconcile_endpoint role ep now g st (some fields)).st.expected_ws_backup =
      st.expected_ws_backup ∧
    (reconcile_endpoint role ep now g st (some fields)).st.suffix_main =
      st.suffix_main ∧
    (reconcile_endpoint role ep now g st (some fields)).st.suffix_backup =
      st.suffix_backup ∧
    (reconcile_endpoint role ep now g st (some fields)).st.suffix_aux1 =
      st.suffix_aux1 ∧
    (reconcile_endpoint role ep now g st (some fields)).st.paused = st.paused := by
  have hog : offline_gate g role now = true := decide_eq_true hgate
  have hthr2 : ¬(now - g.lastReconcile role < RECONCILE_EVERY) :=
    not_lt.mpr (by linarith)
  have hfemp : fields.isEmpty = false := by
    cases fields
    · exact absurd rfl hfne
    · rfl
  have hwmne : parse_workspaces (.obj fields) ≠ [] := by
    intro h
    rw [h] at hlook
    cases hlook
  have hwmemp : (parse_workspaces (.obj fields)).isEmpty = false := by
    cases hc : parse_workspaces (.obj fields)
    · exact absurd hc hwmne
    · rfl
  have hnemp : n.isEmpty = false := by
    cases he : n.isEmpty
    · rfl
    · exact absurd ((String.isEmpty_iff _).mp he) hnne
  have hiemp : newId.isEmpty = false := by
    cases he : newId.isEmpty
    · rfl
    · exact absurd ((String.isEmpty_iff _).mp he) hidne
  have hred : reconcile_endpoint role ep now g st (some fields) =
      ⟨true, { ep with workspace_id := some newId },
       reset_offline_backoff (updLastReconcile g role now) role,
       applyWsidUpdate st role n newId⟩ := by
    unfold reconcile_endpoint
    rw [hog]
    simp only [Bool.not_true, Bool.false_eq_true, if_false, if_neg hthr2, hfemp,
      hwmemp, hname, hnemp, hlook, hiemp, if_pos hchanged]
  rw [hred]
  dsimp only
  unfold applyWsidUpdate
  dsimp only
  refine ⟨rfl, rfl, ?_, ?_, ?_, rfl, rfl, rfl, rfl, rfl, rfl, rfl, rfl, rfl, rfl⟩
  · rw [Function.update_same]
  · intro r2 hr2
    rw [Function.update_noteq hr2]
  · rw [Function.update_same]
    rfl

/-! ## LED blink target (claim C9) -/

/-- Claim C9: with blink enabled and half-period `toggle > 0`, the pre-fade
target color at monotonic time `now ≥ 0` is the steady color when
`⌊now / toggle⌋` is even and the (dimmed) off color when it is odd; with
blink disabled it is always the steady color; and the off color is
`(0, 0, 0)`. -/
theorem C9_led_blink_target (steady : ℤ × ℤ × ℤ) (toggle now : ℚ)
    (hT : 0 < toggle) (hnow : 0 ≤ now) :
    (led_target steady true toggle now =
      if ⌊now / toggle⌋ % 2 = 0 then steady else dimColor C_OFF) ∧
    led_target steady false toggle now = steady ∧
    dimColor C_OFF = (0, 0, 0) := by
  have hdiv : 0 ≤ now / toggle := div_nonneg hnow hT.le
  have htr : pyTrunc (now / toggle) = ⌊now / toggle⌋ := by
    unfold pyTrunc
    rw [if_pos hdiv]
  refine ⟨?_, rfl, ?_⟩
  · unfold led_target blink_on
    rw [htr]
    by_cases hpar : ⌊now / toggle⌋ % 2 = 0
    · rw [if_pos hpar]
      simp [hpar]
    · rw [if_neg hpar]
      simp [hpar]
  · norm_num [dimColor, C_OFF, pyTrunc, dimFactor]

/-! ## Witnesses -/

/-- Witness for C1 at a concrete discovery input with one complete base
`gala` and one unrelated plain workspace. -/
theorem C1_witness :
    decide_roles [("10.0.0.1", [("gala_main", .str "M"), ("gala_backup", .str "K")]),
                  ("10.0.0.2", [("Solo", .str "P")])] =
      .ok { main := some { ip := "10.0.0.1", role := "main",
                           workspace_name := some "gala_main",
                           workspace_id := some "M" },
            backup := some { ip := "10.0.0.1", role := "backup",
                             workspace_name := some "gala_backup",
                             workspace_id := some "K" },
            aux := none } :=
  C1_complete_base_selection
    [("10.0.0.1", [("gala_main", .str "M"), ("gala_backup", .str "K")]),
     ("10.0.0.2", [("Solo", .str "P")])]
    ⟨"10.0.0.1", "gala_main", "M", "main", "gala"⟩
    ⟨"10.0.0.1", "gala_backup", "K", "backup", "gala"⟩
    "gala" (by decide) (by decide) (by decide) (by decide) (by decide) (by decide)
    (by decide) (by decide) (by decide)

/-- Witness for C2 (amended) at two responders both advertising
`show_main` with valid identifiers. -/
theorem C2_witness :
    decide_roles [("10.0.0.1", [("show_main", .str "A")]),
                  ("10.0.0.2", [("show_main", .str "B")])] = .error .conflict :=
  C2_duplicate_kind_conflict
    [("10.0.0.1", [("show_main", .str "A")]), ("10.0.0.2", [("show_main", .str "B")])]
    "10.0.0.1" "10.0.0.2" "show_main" "show_main" "A" "B"
    [("show_main", .str "A")] [("show_main", .str "B")]
    (List.mem_cons_self _ _)
    (List.mem_cons_of_mem _ (List.mem_cons_self _ _))
    (List.mem_cons_self _ _) (List.mem_cons_self _ _)
    (by decide) (by decide) (by decide) (by decide) (by decide) (by decide)

/-- Witness for C3 at a single-plain-workspace responder. -/
theorem C3_witness :
    (candidatesOf [("10.0.0.3", [("Solo", JValue.str "P")])] = [] →
      decide_roles [("10.0.0.3", [("Solo", JValue.str "P")])] =
        .error .noResponders) ∧
    (∀ p, candidatesOf [("10.0.0.3", [("Solo", JValue.str "P")])] = [p] →
      decide_roles [("10.0.0.3", [("Solo", JValue.str "P")])] =
        .ok { main := some { ip := p.ip, role := "main",
                             workspace_name := some p.ws_name,
                             workspace_id := some p.ws_id },
              backup := none, aux := none }) ∧
    (2 ≤ (candidatesOf [("10.0.0.3", [("Solo", JValue.str "P")])]).length →
      decide_roles [("10.0.0.3", [("Solo", JValue.str "P")])] = .error .conflict) :=
  C3_plain_only [("10.0.0.3", [("Solo", JValue.str "P")])] (by decide)

/-- Witness for C10 at one responder whose only identifier is the empty
string. -/
theorem C10_witness :
    decide_roles [("10.0.0.1", [("show_main", JValue.str "")])] =
      decide_roles ([("10.0.0.1", [("show_main", JValue.str "")])].map
        fun p => (p.1, p.2.filter fun q => validId q.2)) ∧
    decide_roles [("10.0.0.1", [("show_main", JValue.str "")])] =
      .error .noResponders :=
  ⟨(C10_invalid_identifiers [("10.0.0.1", [("show_main", JValue.str "")])]).1,
   (C10_invalid_identifiers [("10.0.0.1", [("show_main", JValue.str "")])]).2
     (List.cons_ne_nil _ _) (by decide)⟩

/-- Witness for C4 at a concrete reconcile call where the identifier of
`show_main` moved from `OLD` to `NEW`. -/
theorem C4_witness :
    (reconcile_endpoint Role.main
        ⟨"10.0.0.5", "main", some "show_main", some "OLD", 0⟩ 10
        ⟨fun _ => 0, fun _ => 0, fun _ => 0⟩
        ⟨true, 0, 53000, 53001, "show_main", "show_backup", "_main", "_backup",
         "_aux1", fun _ => some ⟨some "10.0.0.5", some "show_main", some "OLD"⟩,
         false⟩
        (some [("status", .str "ok"),
               ("data", .arr [.obj [("displayName", .str "show_main"),
                                    ("uniqueID", .str "NEW")]])])).changed = true ∧
    (reconcile_endpoint Role.main
        ⟨"10.0.0.5", "main", some "show_main", some "OLD", 0⟩ 10
        ⟨fun _ => 0, fun _ => 0, fun _ => 0⟩
        ⟨true, 0, 53000, 53001, "show_main", "show_backup", "_main", "_backup",
         "_aux1", fun _ => some ⟨some "10.0.0.5", some "show_main", some "OLD"⟩,
         false⟩
        (some [("status", .str "ok"),
               ("data", .arr [.obj [("displayName", .str "show_main"),
                                    ("uniqueID", .str "NEW")]])])).st.endpoints
        Role.main =
      some ⟨some "10.0.0.5", some "show_main", some "NEW"⟩ ∧
    (reconcile_endpoint Role.main
        ⟨"10.0.0.5", "main", some "show_main", some "OLD", 0⟩ 10
        ⟨fun _ => 0, fun _ => 0, fun _ => 0⟩
        ⟨true, 0, 53000, 53001, "show_main", "show_backup", "_main", "_backup",
         "_aux1", fun _ => some ⟨some "10.0.0.5", some "show_main", some "OLD"⟩,
         false⟩
        (some [("status", .str "ok"),
               ("data", .arr [.obj [("displayName", .str "show_main"),
                                    ("uniqueID", .str "NEW")]])])).st.paused =
      false := by
  have h := C4_reconcile_persists_new_id Role.main
    ⟨"10.0.0.5", "main", some "show_main", some "OLD", 0⟩ 10
    ⟨fun _ => 0, fun _ => 0, fun _ => 0⟩
    ⟨true, 0, 53000, 53001, "show_main", "show_backup", "_main", "_backup",
     "_aux1", fun _ => some ⟨some "10.0.0.5", some "show_main", some "OLD"⟩,
     false⟩
    [("status", .str "ok"),
     ("data", .arr [.obj [("displayName", .str "show_main"),
                          ("uniqueID", .str "NEW")]])]
    "show_main" "NEW" (by decide) (by norm_num [RECONCILE_EVERY]) (List.cons_ne_nil _ _) rfl
    (by decide) rfl (by decide) (by decide)
  exact ⟨h.1, h.2.2.1, h.2.2.2.2.2.2.2.2.2.2.2.2.2.2⟩

/-- Witness for C5 (amended) at a complete `/thump` reply. -/
theorem C5_witness :
    (osc_handler "/reply/workspace/W/thump"
        [("address", JValue.str "/workspace/W/thump"),
         ("status", JValue.str "ok"),
         ("workspace_id", JValue.str "W")] true).markSeen = true :=
  C5_amended_thump_marks_seen "/reply/workspace/W/thump"
    [("address", JValue.str "/workspace/W/thump"),
     ("status", JValue.str "ok"),
     ("workspace_id", JValue.str "W")] true "/workspace/W/thump" "W"
    (by decide) rfl (by decide) rfl rfl (by decide)

/-- Witness for C8 at concrete gate states: first failure yields backoff
2, a 16-second backoff doubles to the 20-second cap, reset zeroes both
fields, a blocked call leaves everything unchanged, and a passing call
with no reply bumps the backoff. -/
theorem C8_witness :
    (bump_offline_backoff ⟨fun _ => 0, fun _ => 0, fun _ => 0⟩ Role.main
        7).offlineBackoff Role.main = OFFLINE_BACKOFF_MIN ∧
    (bump_offline_backoff ⟨fun _ => 0, fun _ => 16, fun _ => 0⟩ Role.main
        7).offlineBackoff Role.main =
      min OFFLINE_BACKOFF_MAX (16 * OFFLINE_BACKOFF_FACTOR) ∧
    (bump_offline_backoff ⟨fun _ => 0, fun _ => 16, fun _ => 0⟩ Role.main
        7).offlineNextTry Role.main =
      7 + (bump_offline_backoff ⟨fun _ => 0, fun _ => 16, fun _ => 0⟩ Role.main
        7).offlineBackoff Role.main ∧
    (reset_offline_backoff ⟨fun _ => 0, fun _ => 16, fun _ => 3⟩
        Role.main).offlineBackoff Role.main = 0 ∧
    (reset_offline_backoff ⟨fun _ => 0, fun _ => 16, fun _ => 3⟩
        Role.main).offlineNextTry Role.main = 0 ∧
    reconcile_endpoint Role.main ⟨"10.0.0.5", "main", none, none, 0⟩ 1
        ⟨fun _ => 0, fun _ => 0, fun _ => 5⟩
        ⟨false, 0, 53000, 53001, "show_main", "show_backup", "_main", "_backup",
         "_aux1", fun _ => none, false⟩ none =
      ⟨false, ⟨"10.0.0.5", "main", none, none, 0⟩,
       ⟨fun _ => 0, fun _ => 0, fun _ => 5⟩,
       ⟨false, 0, 53000, 53001, "show_main", "show_backup", "_main", "_backup",
        "_aux1", fun _ => none, false⟩⟩ ∧
    (reconcile_endpoint Role.main ⟨"10.0.0.5", "main", none, none, 0⟩ 10
        ⟨fun _ => 0, fun _ => 0, fun _ => 0⟩
        ⟨false, 0, 53000, 53001, "show_main", "show_backup", "_main", "_backup",
         "_aux1", fun _ => none, false⟩ none).gates =
      bump_offline_backoff
        (updLastReconcile ⟨fun _ => 0, fun _ => 0, fun _ => 0⟩ Role.main 10)
        Role.main 10 := by
  have h := C8_reconcile_throttle_and_backoff
  refine ⟨(h.2.1 _ Role.main 7).1 (by decide),
          (h.2.1 _ Role.main 7).2.1 (by decide),
          (h.2.1 _ Role.main 7).2.2,
          (h.2.2.1 _ Role.main).1,
          (h.2.2.1 _ Role.main).2,
          (h.2.2.2 Role.main _ 1 _ _ none).2 (by decide),
          ?_⟩
  exact ((h.2.2.2 Role.main ⟨"10.0.0.5", "main", none, none, 0⟩ 10
    ⟨fun _ => 0, fun _ => 0, fun _ => 0⟩
    ⟨false, 0, 53000, 53001, "show_main", "show_backup", "_main", "_backup",
     "_aux1", fun _ => none, false⟩ none).1
    ((reconcile_gates_pass_iff _ _ _).mpr
      ⟨by decide, by norm_num [RECONCILE_EVERY]⟩)).2

/-- Witness for C9 at a concrete blink state. -/
theorem C9_witness :
    (led_target (10, 20, 30) true (1 / 2) (3 / 4) =
      if ⌊(3 / 4 : ℚ) / (1 / 2)⌋ % 2 = 0 then (10, 20, 30) else dimColor C_OFF) ∧
    led_target (10, 20, 30) false (1 / 2) (3 / 4) = (10, 20, 30) ∧
    dimColor C_OFF = (0, 0, 0) :=
  C9_led_blink_target (10, 20, 30) (1 / 2) (3 / 4) (by norm_num) (by norm_num)

end QLabBox
